import Mathlib

/-!
Verification of the mosaic composition engine of the `gift` repository.

The source is a React application (`src/App.jsx` — the quadtree variant, and
the hexagonal variant contained in the unnamed source parts).  The engine's
core is pure arithmetic over JavaScript numbers: region partitioning
(adaptive quadtree / hexagonal grid), color sampling, diversity-constrained
tile matching, mask-driven opacity shading and a high-resolution re-render.

Modelling conventions used throughout this file:
* JavaScript numbers are modelled by `ℚ`.  The source's pixel data, colors,
  coordinates and thresholds are all rational in every scenario verified
  here.  `Math.sqrt` is modelled by `jsSqrt` below, which is exact on
  perfect-square natural numbers — every concrete input appearing in a
  theorem of this file is of that form; theorems in which square roots occur
  symbolically never depend on the value of a square root, only on its
  non-negativity or on `Nat.sqrt`'s monotonicity.
* `Map`/`Set` objects: a usage ledger (`Map`) is a total function `ℕ → ℕ`
  defaulting to `0`, matching `usageCount.get(i) || 0`; the excluded-index
  `Set` is a `Finset ℕ` (only membership is consulted); the
  `availableTileIndices` `Set` is an `Option (List ℕ)` because the fallback
  path iterates it in insertion order (`Array.from(...).find(...)`).
* `ImageData` is a structure with a width, a height and a total function
  from flat `data`-array indices to values; the source reads channel
  `(py * width + px) * 4 + c`.  NaN/finiteness guards of the source are
  vacuous in the rational model and are noted where they occur.
* Console logging and debug parameters have no effect on the returned
  values and are omitted.
-/

namespace Gift

/-- Model of JavaScript `Math.sqrt`.  Exact on perfect-square naturals
(`jsSqrt 25 = 5`, `jsSqrt 0 = 0`), a floor approximation elsewhere; the
IEEE-754 `Math.sqrt` of the source is itself approximate.  Every theorem
below either evaluates it only on perfect squares or uses only its
non-negativity / monotonicity on naturals. -/

def jsSqrt (q : ℚ) : ℚ := (Nat.sqrt ⌊q⌋₊ : ℚ)

/-- Model of JavaScript `Math.round` (the source only rounds non-negative
averages, where `Math.round x = ⌊x + 1/2⌋`). -/

def jsRound (q : ℚ) : ℚ := ((⌊q + 1/2⌋ : ℤ) : ℚ)

/-- Model of `Math.pow(usage, 1.5)` for a natural usage count:
`u ^ 1.5 = sqrt (u ^ 3)`. -/

def jsPow15 (u : ℕ) : ℚ := jsSqrt ((u : ℚ) ^ 3)

/-- An `{r, g, b}` color record. -/

structure Color where
  r : ℚ
  g : ℚ
  b : ℚ
  deriving DecidableEq

/-- `colorDistance` (App.jsx:303): Euclidean RGB distance.  The source's
NaN-validity guard (returning `Infinity` for invalid colors) is vacuous in
the rational model. -/

def colorDistance (c1 c2 : Color) : ℚ :=
  jsSqrt ((c1.r - c2.r) ^ 2 + (c1.g - c2.g) ^ 2 + (c1.b - c2.b) ^ 2)

/-- A rasterized pixel buffer: `{width, height, data}` with the flat
`data` array modelled as a total function from flat indices (a `ℚ` index,
since the quadtree sampling loops compute indices from unfloored
coordinates; every access in the verified scenarios is at an in-range
natural index). -/

structure ImageData where
  width : ℕ
  height : ℕ
  data : ℚ → ℚ

/-- The uniform raster whose every channel value is `v` (used for the
uniform-gray partitioning scenarios). -/

def constImg (w h : ℕ) (v : ℚ) : ImageData := ⟨w, h, fun _ => v⟩

/-! ### Stable sorting

`Array.prototype.sort` (ES2019+) is a stable comparison sort; both call
sites sort ascending by a rational key.  We model it by stable insertion
sort parameterised by a boolean `≤`-test. -/

/-- Insert `a` into `l` before the first element `b` with `le a b`.
For a tie (`le a b` and `le b a`) the earlier element of the original
list stays first, matching the stable `Array.sort`. -/

def insertSorted {α : Type} (le : α → α → Bool) (a : α) : List α → List α
  | [] => [a]
  | b :: l => if le a b then a :: b :: l else b :: insertSorted le a l

/-- Stable insertion sort by the boolean `≤`-test `le`. -/

def insSort {α : Type} (le : α → α → Bool) : List α → List α
  | [] => []
  | a :: l => insertSorted le a (insSort le l)

/-! ### Tile matcher (`findBestMatch`)

Two source variants exist: the quadtree build (`src/App.jsx:319`) with no
usage cap, and the hexagonal build (unnamed part_001:1838 / :4350) which
additionally skips candidates at `maxUsage = MAX_TILE_USAGE` and applies an
unused-tile score adjustment.  After the candidate list is built the two
variants share the selection code verbatim; it is factored out below as
`selectFromCandidates`. -/

/-- One entry of the matcher's `candidates` array. -/

structure Candidate where
  index : ℕ
  distance : ℚ
  usage : ℕ
  originalDistance : ℚ
  deriving DecidableEq

/-- The `(a, b) => a.distance - b.distance` comparator as a `≤`-test. -/

def leDist (a b : Candidate) : Bool := decide (a.distance ≤ b.distance)

/-- The similar-candidate comparator: usage ascending, then original
distance ascending (`src/App.jsx:390`). -/

def leUsage (a b : Candidate) : Bool :=
  decide (a.usage < b.usage ∨ (a.usage = b.usage ∧ a.originalDistance ≤ b.originalDistance))

/-- The selection stage shared verbatim by both `findBestMatch` variants
(`src/App.jsx:376-442`): sort by adjusted distance, take the top 20, keep
the candidates within twice the best adjusted distance, re-sort those by
(usage, original distance) and return the first.  The caller handles the
empty-candidate fallback separately. -/

def selectFromCandidates (candidates : List Candidate) : ℕ :=
  let sorted := insSort leDist candidates
  let top := sorted.take (min 20 sorted.length)
  match top with
  | [] => 0                                   -- `topCandidates[0]?.index ?? 0`
  | [t0] => t0.index                          -- `topCandidates.length > 1` false
  | t0 :: _ :: _ =>
    let similar := top.filter (fun c => decide (c.distance ≤ t0.distance * 2))
    match insSort leUsage similar with
    | [] => t0.index                          -- `similarCandidates[0]?.index ?? topCandidates[0].index`
    | s0 :: _ => s0.index

/-- The allow-list test `availableTileIndices && !availableTileIndices.has(index)`
(`src/App.jsx:330`): an index passes when no allow-list was supplied or the
allow-list contains it. -/

def allowPass (availableTileIndices : Option (List ℕ)) (i : ℕ) : Bool :=
  match availableTileIndices with
  | some l => l.contains i
  | none => true

/-- The fallback stage shared by both variants (`src/App.jsx:345-374`):
with no candidates, return the first allow-listed non-excluded index if
the allow-list is present and non-empty, else index `0`. -/

def fallbackIndex (excludedIndices : Finset ℕ) (availableTileIndices : Option (List ℕ)) : ℕ :=
  match availableTileIndices with
  | some avail =>
    if avail.length > 0 then
      match avail.find? (fun idx => decide (idx ∉ excludedIndices)) with
      | some firstAvailable => firstAvailable
      | none => 0
    else 0
  | none => 0

namespace AppJsx

/-- The adjusted score of the quadtree variant (`src/App.jsx:337-340`):
`distance = originalDistance + (usage > 0 ? diversityBonus * (1 + usage^1.5) : 0)`. -/
def adjustedDistance (diversityBonus originalDistance : ℚ) (usage : ℕ) : ℚ :=
  originalDistance + (if usage > 0 then diversityBonus * (1 + jsPow15 usage) else 0)

/-- Candidate construction of the quadtree variant (`src/App.jsx:321-343`),
iterating `photoColors` with its index: skip excluded indices, skip indices
absent from the allow-list, score with the exponential usage penalty.
The recursion carries the current index `i`. -/
def buildCandidates (targetColor : Color) (usageCount : ℕ → ℕ)
    (excludedIndices : Finset ℕ) (diversityBonus : ℚ)
    (availableTileIndices : Option (List ℕ)) : ℕ → List Color → List Candidate
  | _, [] => []
  | i, color :: rest =>
    (if i ∈ excludedIndices then []
     else if allowPass availableTileIndices i = false then []
     else
       let originalDistance := colorDistance targetColor color
       let usage := usageCount i
       [⟨i, adjustedDistance diversityBonus originalDistance usage, usage,
         originalDistance⟩]) ++
    buildCandidates targetColor usageCount excludedIndices diversityBonus
      availableTileIndices (i + 1) rest

/-- `findBestMatch` of the quadtree variant (`src/App.jsx:319`). -/
def findBestMatch (targetColor : Color) (photoColors : List Color)
    (usageCount : ℕ → ℕ) (excludedIndices : Finset ℕ) (diversityBonus : ℚ)
    (availableTileIndices : Option (List ℕ)) : ℕ :=
  let candidates := buildCandidates targetColor usageCount excludedIndices
    diversityBonus availableTileIndices 0 photoColors
  match candidates with
  | [] => fallbackIndex excludedIndices availableTileIndices
  | _ :: _ => selectFromCandidates candidates

end AppJsx

/-- `MAX_TILE_USAGE` (unnamed part_001:1585 / :3617). -/

def MAX_TILE_USAGE : ℕ := 2

namespace Hex

/-- Candidate construction of the hexagonal variant (unnamed
part_001:1842-1870): additionally skips candidates with
`usage >= maxUsage`, and computes
`distance = originalDistance + usagePenalty - unusedPenalty` where
`unusedPenalty = usage === 0 ? -diversityBonus * 0.5 : 0`.  Note the sign:
subtracting the negative `unusedPenalty` *adds* `diversityBonus / 2` for
unused candidates. -/
def buildCandidates (targetColor : Color) (usageCount : ℕ → ℕ)
    (excludedIndices : Finset ℕ) (diversityBonus : ℚ)
    (availableTileIndices : Option (List ℕ)) (maxUsage : ℕ) :
    ℕ → List Color → List Candidate
  | _, [] => []
  | i, color :: rest =>
    (if i ∈ excludedIndices then []
     else if allowPass availableTileIndices i = false then []
     else if usageCount i ≥ maxUsage then []
     else
       let usage := usageCount i
       let originalDistance := colorDistance targetColor color
       let unusedPenalty := if usage = 0 then -diversityBonus * (1/2) else 0
       let usagePenalty := if usage > 0 then diversityBonus * (1 + jsPow15 usage) else 0
       [⟨i, originalDistance + usagePenalty - unusedPenalty, usage, originalDistance⟩]) ++
    buildCandidates targetColor usageCount excludedIndices diversityBonus
      availableTileIndices maxUsage (i + 1) rest

/-- `findBestMatch` of the hexagonal variant (unnamed part_001:1838). -/
def findBestMatch (targetColor : Color) (photoColors : List Color)
    (usageCount : ℕ → ℕ) (excludedIndices : Finset ℕ) (diversityBonus : ℚ)
    (availableTileIndices : Option (List ℕ)) (maxUsage : ℕ) : ℕ :=
  let candidates := buildCandidates targetColor usageCount excludedIndices
    diversityBonus availableTileIndices maxUsage 0 photoColors
  match candidates with
  | [] => fallbackIndex excludedIndices availableTileIndices
  | _ :: _ => selectFromCandidates candidates

/-- One generation pass of the hexagonal orchestrator over the already
sampled per-region colors (unnamed part_001:5321-5340): per region, call
the matcher with the live ledger, then increment the returned index's
ledger entry once.  Returns the list of assigned tile indices and the
final ledger. -/
def generatePass (photoColors : List Color) (excludedIndices : Finset ℕ)
    (diversityBonus : ℚ) (availableTileIndices : Option (List ℕ)) (maxUsage : ℕ) :
    List Color → (ℕ → ℕ) → List ℕ × (ℕ → ℕ)
  | [], usageCount => ([], usageCount)
  | tileColor :: rest, usageCount =>
    let bestIndex := findBestMatch tileColor photoColors usageCount
      excludedIndices diversityBonus availableTileIndices maxUsage
    let next := generatePass photoColors excludedIndices diversityBonus
      availableTileIndices maxUsage rest
      (Function.update usageCount bestIndex (usageCount bestIndex + 1))
    (bestIndex :: next.1, next.2)

end Hex

/-! ### Mask field and opacity shading

`isTransparentInMask` (`src/App.jsx:74-92`), `distanceToTransparentMask`
(`src/App.jsx:95-128`) and `calculateTileOpacity` (`src/App.jsx:446-481`;
identical in the hexagonal variant up to its `MIN_OPACITY`).  The absent
mask (`!maskData || !maskData.imageData`) is the `none` case of an
`Option ImageData`.  JavaScript `Infinity` (the "no transparent pixel
found" distance) is the `none` case of an `Option ℚ`. -/

/-- `MIN_OPACITY` (`src/App.jsx:14`; also unnamed part_001:3600). -/

def MIN_OPACITY : ℚ := 1/10

/-- `MAX_OPACITY` (`src/App.jsx:15`). -/

def MAX_OPACITY : ℚ := 1

/-- `OPACITY_TRANSITION_TILES` (`src/App.jsx:21`). -/

def OPACITY_TRANSITION_TILES : ℚ := 1

/-- `BORDER_GRADIENT_WIDTH_MULTIPLIER` (unnamed part_001:3627). -/

def BORDER_GRADIENT_WIDTH_MULTIPLIER : ℚ := 3/2

/-- `isTransparentInMask(x, y, maskData)`: floor the coordinates, treat
out-of-bounds as opaque, and read the alpha channel at flat index
`(py * width + px) * 4 + 3`; alpha ≤ 128 means transparent. -/

def isTransparentInMask (x y : ℚ) (maskData : Option ImageData) : Bool :=
  match maskData with
  | none => false
  | some imgData =>
    let px := ⌊x⌋
    let py := ⌊y⌋
    if px < 0 ∨ px ≥ imgData.width ∨ py < 0 ∨ py ≥ imgData.height then false
    else
      let idx : ℕ := (py.toNat * imgData.width + px.toNat) * 4
      decide (imgData.data ((idx : ℚ) + 3) ≤ 128)

/-- The offsets visited by `for (let v = -r; v <= r; v += 1)`:
`-r + k` for `k = 0, …, ⌊2r⌋` (none when `r < 0`). -/

def searchOffsets (r : ℚ) : List ℚ :=
  (List.range (⌊2 * r⌋ + 1).toNat).map (fun k => -r + k)

/-- The `(dy, dx)` pairs of the nested search loops of
`distanceToTransparentMask`, in visit order (outer `dy`, inner `dx`). -/

def scanPairs (r : ℚ) : List (ℚ × ℚ) :=
  (searchOffsets r).flatMap (fun dy => (searchOffsets r).map (fun dx => (dy, dx)))

/-- The body of the search loops, threading `minDistance` (`none` models
the initial `Infinity`): on a transparent sample whose distance improves
the minimum, record it and return early when it is below `2`. -/

def maskScan (x y : ℚ) (maskData : Option ImageData) :
    List (ℚ × ℚ) → Option ℚ → Option ℚ
  | [], minDistance => minDistance
  | (dy, dx) :: rest, minDistance =>
    if isTransparentInMask (x + dx) (y + dy) maskData then
      let distance := jsSqrt (dx * dx + dy * dy)
      if (match minDistance with
          | none => true
          | some m => decide (distance < m)) = true then
        if distance < 2 then some distance
        else maskScan x y maskData rest (some distance)
      else maskScan x y maskData rest minDistance
    else maskScan x y maskData rest minDistance

/-- `distanceToTransparentMask(x, y, maskData, maxSearchDistance)`:
distance `0` at a transparent point, otherwise the grid search over
`searchRadius = min(maxSearchDistance, max(width, height) * 0.3)`. -/

def distanceToTransparentMask (x y : ℚ) (maskData : Option ImageData)
    (maxSearchDistance : ℚ) : Option ℚ :=
  match maskData with
  | none => none
  | some imgData =>
    if isTransparentInMask x y maskData then some 0
    else
      let searchRadius :=
        min maxSearchDistance ((max imgData.width imgData.height : ℕ) * (3/10))
      maskScan x y maskData (scanPairs searchRadius) none

/-- `calculateTileOpacity(tileCenterX, tileCenterY, containerWidth,
containerHeight, maskData, averageTileSize)`.  (`containerWidth` and
`containerHeight` are unused by the source body and kept for signature
fidelity.) -/

def calculateTileOpacity (tileCenterX tileCenterY : ℚ)
    (containerWidth containerHeight : ℚ) (maskData : Option ImageData)
    (averageTileSize : ℚ) : ℚ :=
  match maskData with
  | none => MAX_OPACITY
  | some _ =>
    if isTransparentInMask tileCenterX tileCenterY maskData then MIN_OPACITY
    else
      let maxSearchDistance := averageTileSize * OPACITY_TRANSITION_TILES * 3
      match distanceToTransparentMask tileCenterX tileCenterY maskData
          maxSearchDistance with
      | none => MAX_OPACITY
      | some minDistanceToMask =>
        let transitionDistance := averageTileSize * OPACITY_TRANSITION_TILES
        let normalizedDistance := min (minDistanceToMask / transitionDistance) 1
        let opacity := MIN_OPACITY + (MAX_OPACITY - MIN_OPACITY) * normalizedDistance
        max MIN_OPACITY (min MAX_OPACITY opacity)

/-- The final opacity stored on a hexagonal tile (unnamed
part_001:5353-5386): `MAX_OPACITY` off the hero image; on it, the
mask-driven opacity additionally multiplied by the border fade factor
`minDistToBorder / borderGradientWidthValue` when the center is within the
border-gradient width of the hero image's edge. -/

def hexTileOpacity (centerX centerY mainImgX mainImgY mainImgWidth mainImgHeight : ℚ)
    (maskData : Option ImageData) (averageTileSize borderGradientWidthValue : ℚ) : ℚ :=
  if mainImgX ≤ centerX ∧ centerX ≤ mainImgX + mainImgWidth ∧
      mainImgY ≤ centerY ∧ centerY ≤ mainImgY + mainImgHeight then
    let maskX := centerX - mainImgX
    let maskY := centerY - mainImgY
    let opacity := calculateTileOpacity maskX maskY mainImgWidth mainImgHeight
      maskData averageTileSize
    let minDistToBorder :=
      min (min maskX (mainImgWidth - maskX)) (min maskY (mainImgHeight - maskY))
    if minDistToBorder < borderGradientWidthValue then
      opacity * (minDistToBorder / borderGradientWidthValue)
    else opacity
  else MAX_OPACITY

/-! ### Screen render and high-resolution export

The on-screen mosaic (`src/App.jsx:2141-2162` and the tile `<img>` style at
`:2212`) and `downloadHighRes` (`src/App.jsx:1820-1868`) both walk the
resolved tile list.  A `Tile` carries the fields those sites read; the
source's tile objects carry further presentation fields that neither site's
geometry/opacity logic consults.  Asset availability is a predicate on tile
ids: for the screen render it is definedness of `tileImageUrls`, for the
export it is the `onload`/`onerror` outcome of the re-fetch. -/

/-- The fields of a resolved tile consulted by the render and export
paths. -/

structure Tile where
  x : ℚ
  y : ℚ
  width : ℚ
  height : ℚ
  imageIndex : ℕ
  opacity : ℚ
  deriving DecidableEq

/-- One drawing command: which image is composited where, at which
opacity. -/

structure DrawCmd where
  imageIndex : ℕ
  x : ℚ
  y : ℚ
  width : ℚ
  height : ℚ
  alpha : ℚ
  deriving DecidableEq

/-- JavaScript `a || b` for a numeric `a` (falsy exactly at `0` in the
rational model), as in `tile.opacity || MIN_OPACITY`. -/

def jsOrDefault (q fallbackValue : ℚ) : ℚ := if q = 0 then fallbackValue else q

/-- The draw commands issued by `downloadHighRes` (`src/App.jsx:1820-1868`):
for every tile whose image loads, draw it at the tile's coordinates and
size scaled by `scaleFactor`, at `globalAlpha = tile.opacity || MIN_OPACITY`;
tiles whose image fails to load are skipped (`onerror → resolve()`). -/

def downloadHighResDraws (tiles : List Tile) (loads : ℕ → Bool)
    (scaleFactor : ℚ) : List DrawCmd :=
  tiles.filterMap (fun tile =>
    if loads tile.imageIndex then
      some ⟨tile.imageIndex, tile.x * scaleFactor, tile.y * scaleFactor,
        tile.width * scaleFactor, tile.height * scaleFactor,
        jsOrDefault tile.opacity MIN_OPACITY⟩
    else none)

/-- The tile elements emitted by the screen render
(`src/App.jsx:2141-2162`, img opacity from `:2212` in the non-hovered
state): tiles without a loaded URL are dropped. -/

def screenTileDraws (tiles : List Tile) (hasUrl : ℕ → Bool) : List DrawCmd :=
  tiles.filterMap (fun tile =>
    if hasUrl tile.imageIndex then
      some ⟨tile.imageIndex, tile.x, tile.y, tile.width, tile.height,
        jsOrDefault tile.opacity MIN_OPACITY⟩
    else none)

/-- Uniform scaling of a draw command (opacity and image unchanged). -/

def scaleDraw (scaleFactor : ℚ) (cmd : DrawCmd) : DrawCmd :=
  ⟨cmd.imageIndex, cmd.x * scaleFactor, cmd.y * scaleFactor,
    cmd.width * scaleFactor, cmd.height * scaleFactor, cmd.alpha⟩

/-- The render list of `tiles.map(...).filter(item => item !== null)`
(`src/App.jsx:2141-2162`): each tile is paired with its loaded URL, or
dropped when `tileImageUrls[tile.imageIndex]` is absent. -/

def tilesToRender (tiles : List Tile) (tileImageUrls : ℕ → Option String) :
    List (Tile × String) :=
  tiles.filterMap (fun tile =>
    (tileImageUrls tile.imageIndex).map (fun url => (tile, url)))

/-- The URL map built by `loadTiles` (`src/App.jsx:1649-1696`): an id is
mapped only when it occurs in the tile list, is allow-listed, resolves to a
named image, and its own `/tiles/<filename>` asset loads from the cache;
otherwise it is absent — no fallback image is substituted. -/

def loadTilesUrls (tiles : List Tile) (availableTileIndices : List ℕ)
    (images : List String) (cacheLoad : String → Option String) :
    ℕ → Option String :=
  fun imageIndex =>
    if (tiles.map Tile.imageIndex).contains imageIndex ∧
        availableTileIndices.contains imageIndex then
      match images.get? imageIndex with
      | none => none
      | some filename =>
        if filename = "" then none
        else cacheLoad ("/tiles/" ++ filename)
    else none

/-! ### Adaptive quadtree partitioner

`calculateVariance` (`src/App.jsx:159-191`), `getAreaColor`
(`src/App.jsx:194-235`) and `buildQuadtree` (`src/App.jsx:238-290`).

The source builds the tree breadth-first over an explicit queue; whether a
node splits depends only on that node and the raster, never on processing
order, so the set of leaves is order-independent and is modelled by a
bounded recursion producing the colored-leaf list directly (nodes skipped
by the out-of-bounds `continue`, which keep `avgColor = null` and are
filtered out by the orchestrator, produce no leaf).  The fuel
`Nat.clog 2 (max w h) + 30` exceeds any reachable depth: node sizes halve
from the root size `2 ^ ⌈log₂ (max w h)⌉` and splitting stops once the
clipped size is at most `minTileSize = min w h / 20`. -/

/-- `MIN_TILES_PER_DIMENSION` (`src/App.jsx:6`). -/

def MIN_TILES_PER_DIMENSION : ℕ := 10

/-- `MAX_TILES_PER_DIMENSION` (`src/App.jsx:7`). -/

def MAX_TILES_PER_DIMENSION : ℕ := 20

/-- `VARIANCE_THRESHOLD` (`src/App.jsx:9`). -/

def VARIANCE_THRESHOLD : ℚ := 800

/-- Number of iterations of `for (let v = a; v < b; v += 1)`. -/

def stepsBetween (a b : ℚ) : ℕ := (⌈b - a⌉).toNat

/-- The channel value read at pixel `(px, py)`:
`imageData.data[(py * canvasWidth + px) * 4 + c]`. -/

def pixelChannel (imageData : ImageData) (canvasWidth : ℕ) (px py : ℚ) (c : ℕ) : ℚ :=
  imageData.data ((py * canvasWidth + px) * 4 + c)

/-- `calculateVariance(imageData, x, y, size, canvasWidth)`: the sum over
R, G, B of the population variance `E[v²] − E[v]²` over the pixels of the
region clipped to `endX = min(x+size, canvasWidth)`,
`endY = min(x+size, imageData.height)`; `0` on an empty region. -/

def calculateVariance (imageData : ImageData) (x y size : ℚ) (canvasWidth : ℕ) : ℚ :=
  let endX := min (x + size) (canvasWidth : ℚ)
  let endY := min (y + size) (imageData.height : ℚ)
  let m := stepsBetween y endY
  let n := stepsBetween x endX
  let count := m * n
  if count = 0 then 0
  else
    let chSum := fun (c : ℕ) => (Finset.range m).sum (fun j =>
      (Finset.range n).sum (fun i =>
        pixelChannel imageData canvasWidth (x + i) (y + j) c))
    let chSqSum := fun (c : ℕ) => (Finset.range m).sum (fun j =>
      (Finset.range n).sum (fun i =>
        pixelChannel imageData canvasWidth (x + i) (y + j) c ^ 2))
    let varOf := fun (c : ℕ) =>
      chSqSum c / count - (chSum c / count) * (chSum c / count)
    varOf 0 + varOf 1 + varOf 2

/-- `getAreaColor(imageData, x, y, size, canvasWidth)`: the rounded mean
color over the in-bounds integer pixels of the floored, clipped region;
neutral gray `(128, 128, 128)` when no pixel qualifies.  (The source's
NaN/finiteness guards are vacuous here.) -/

def getAreaColor (imageData : ImageData) (x y size : ℚ) (canvasWidth : ℕ) : Color :=
  let startX : ℤ := max 0 ⌊x⌋
  let startY : ℤ := max 0 ⌊y⌋
  let endX : ℤ := min ⌊x + size⌋ (canvasWidth : ℤ)
  let endY : ℤ := min ⌊y + size⌋ (imageData.height : ℤ)
  let pts := (Finset.range (endY - startY).toNat) ×ˢ
    (Finset.range (endX - startX).toNat)
  let valid := pts.filter (fun p =>
    0 ≤ startX + p.2 ∧ startX + p.2 < (canvasWidth : ℤ) ∧
    0 ≤ startY + p.1 ∧ startY + p.1 < (imageData.height : ℤ))
  let count := valid.card
  if count = 0 then ⟨128, 128, 128⟩
  else
    let chSum := fun (c : ℕ) => valid.sum (fun p =>
      pixelChannel imageData canvasWidth ((startX + p.2 : ℤ) : ℚ)
        ((startY + p.1 : ℤ) : ℚ) c)
    ⟨jsRound (chSum 0 / count), jsRound (chSum 1 / count),
      jsRound (chSum 2 / count)⟩

/-- A colored quadtree leaf: the node position, the clipped size written
back by `node.size = actualSize`, and the recorded average color. -/

structure QLeaf where
  x : ℚ
  y : ℚ
  size : ℚ
  avgColor : Color
  deriving DecidableEq

/-- One node of `buildQuadtree`'s loop (`src/App.jsx:249-287`): skip nodes
at or beyond the raster bounds, clip the size, and split when
`actualSize > minTileSize` and (`variance > VARIANCE_THRESHOLD` or
`actualSize > maxTileSize`) — the source's
`(variance > T && actualSize > minTileSize) || (actualSize > maxTileSize)`
evaluated under the enclosing `actualSize > minTileSize` guard, noting
`minTileSize < maxTileSize` so an unguarded max-size split cannot occur —
otherwise record a colored leaf of the clipped size. -/

def buildNode (imageData : ImageData) (canvasWidth canvasHeight : ℕ)
    (minTileSize maxTileSize : ℚ) : ℕ → ℚ → ℚ → ℚ → List QLeaf
  | 0, _, _, _ => []
  | fuel+1, x, y, size =>
    if (canvasWidth : ℚ) ≤ x ∨ (canvasHeight : ℚ) ≤ y then []
    else
      let actualSize := min size (min ((canvasWidth : ℚ) - x) ((canvasHeight : ℚ) - y))
      if actualSize ≤ 0 then []
      else if minTileSize < actualSize ∧
          (VARIANCE_THRESHOLD < calculateVariance imageData x y actualSize canvasWidth ∨
            maxTileSize < actualSize) then
        let halfSize := size / 2
        buildNode imageData canvasWidth canvasHeight minTileSize maxTileSize
            fuel x y halfSize ++
          buildNode imageData canvasWidth canvasHeight minTileSize maxTileSize
            fuel (x + halfSize) y halfSize ++
          buildNode imageData canvasWidth canvasHeight minTileSize maxTileSize
            fuel x (y + halfSize) halfSize ++
          buildNode imageData canvasWidth canvasHeight minTileSize maxTileSize
            fuel (x + halfSize) (y + halfSize) halfSize
      else [⟨x, y, actualSize, getAreaColor imageData x y actualSize canvasWidth⟩]

/-- `buildQuadtree(imageData, canvasWidth, canvasHeight)` followed by
`collectLeaves` and the orchestrator's colored-leaf filter: tile-size
bounds derived from the raster, root size the least power of two covering
it. -/

def buildQuadtreeLeaves (imageData : ImageData) (canvasWidth canvasHeight : ℕ) :
    List QLeaf :=
  let minTileSize : ℚ := ((min canvasWidth canvasHeight : ℕ) : ℚ) / MAX_TILES_PER_DIMENSION
  let maxTileSize : ℚ := ((min canvasWidth canvasHeight : ℕ) : ℚ) / MIN_TILES_PER_DIMENSION
  let rootSize : ℚ := 2 ^ Nat.clog 2 (max canvasWidth canvasHeight)
  buildNode imageData canvasWidth canvasHeight minTileSize maxTileSize
    (Nat.clog 2 (max canvasWidth canvasHeight) + 30) 0 0 rootSize

/-- The reference partitioner that splits *only* by the max-size rule
(never by variance) and colors every leaf neutral gray: the behaviour the
uniform-gray scenario predicts for `buildNode`. -/

def maxSplitNode (canvasWidth canvasHeight : ℕ) (minTileSize maxTileSize : ℚ) :
    ℕ → ℚ → ℚ → ℚ → List QLeaf
  | 0, _, _, _ => []
  | fuel+1, x, y, size =>
    if (canvasWidth : ℚ) ≤ x ∨ (canvasHeight : ℚ) ≤ y then []
    else
      let actualSize := min size (min ((canvasWidth : ℚ) - x) ((canvasHeight : ℚ) - y))
      if actualSize ≤ 0 then []
      else if minTileSize < actualSize ∧ maxTileSize < actualSize then
        let halfSize := size / 2
        maxSplitNode canvasWidth canvasHeight minTileSize maxTileSize
            fuel x y halfSize ++
          maxSplitNode canvasWidth canvasHeight minTileSize maxTileSize
            fuel (x + halfSize) y halfSize ++
          maxSplitNode canvasWidth canvasHeight minTileSize maxTileSize
            fuel x (y + halfSize) halfSize ++
          maxSplitNode canvasWidth canvasHeight minTileSize maxTileSize
            fuel (x + halfSize) (y + halfSize) halfSize
      else [⟨x, y, actualSize, ⟨128, 128, 128⟩⟩]

/-- `maxSplitNode` packaged like `buildQuadtreeLeaves`. -/

def maxSplitLeaves (canvasWidth canvasHeight : ℕ) : List QLeaf :=
  let minTileSize : ℚ := ((min canvasWidth canvasHeight : ℕ) : ℚ) / MAX_TILES_PER_DIMENSION
  let maxTileSize : ℚ := ((min canvasWidth canvasHeight : ℕ) : ℚ) / MIN_TILES_PER_DIMENSION
  let rootSize : ℚ := 2 ^ Nat.clog 2 (max canvasWidth canvasHeight)
  maxSplitNode canvasWidth canvasHeight minTileSize maxTileSize
    (Nat.clog 2 (max canvasWidth canvasHeight) + 30) 0 0 rootSize

/-- Point membership in a leaf's half-open rectangle. -/

def ptInLeaf (px py : ℚ) (l : QLeaf) : Prop :=
  l.x ≤ px ∧ px < l.x + l.size ∧ l.y ≤ py ∧ py < l.y + l.size

/-- Two leaves are disjoint when no point lies in both rectangles. -/

def leafDisjoint (a b : QLeaf) : Prop :=
  ∀ px py : ℚ, ¬ (ptInLeaf px py a ∧ ptInLeaf px py b)

/-- Exclusion-set construction of the quadtree orchestrator
(`src/App.jsx:1153-1157`): the index of the current hero photo in `images`
(if found) is the only excluded index. -/

def mainPhotoExcludedIndices (images : List String) (currentFilename : String) :
    Finset ℕ :=
  match images.findIdx? (fun f => decide (f = currentFilename)) with
  | some currentMainPhotoIndex => {currentMainPhotoIndex}
  | none => ∅

/-! ### Claim C2 -/

/-- The ids eligible for matching throughout a hexagonal pass: allow-listed,
not excluded, and within the candidate pool's index range. -/

def eligiblePool (avail : List ℕ) (excludedIndices : Finset ℕ) (poolLen : ℕ) :
    Finset ℕ :=
  avail.toFinset.filter (fun i => i ∉ excludedIndices ∧ i < poolLen)

theorem jsSqrt_nonneg (q : ℚ) : 0 ≤ jsSqrt q := by
  unfold jsSqrt; positivity

theorem jsPow15_eq (u : ℕ) : jsPow15 u = (Nat.sqrt (u ^ 3) : ℚ) := by
  unfold jsPow15 jsSqrt
  rw [show ((u : ℚ) ^ 3) = ((u ^ 3 : ℕ) : ℚ) by push_cast; ring, Nat.floor_natCast]

theorem jsPow15_mono {u v : ℕ} (h : u ≤ v) : jsPow15 u ≤ jsPow15 v := by
  rw [jsPow15_eq, jsPow15_eq]
  exact_mod_cast Nat.sqrt_le_sqrt (Nat.pow_le_pow_left h 3)

theorem colorDistance_nonneg (c1 c2 : Color) : 0 ≤ colorDistance c1 c2 :=
  jsSqrt_nonneg _

theorem mem_insertSorted {α : Type} (le : α → α → Bool) (a x : α) :
    ∀ l : List α, x ∈ insertSorted le a l ↔ x = a ∨ x ∈ l := by
  intro l
  induction l with
  | nil => simp [insertSorted]
  | cons b l ih =>
    unfold insertSorted
    by_cases h : le a b = true
    · rw [if_pos h]
      simp only [List.mem_cons]
    · rw [if_neg h]
      simp only [List.mem_cons, ih]
      tauto

theorem mem_insSort {α : Type} (le : α → α → Bool) (x : α) :
    ∀ l : List α, x ∈ insSort le l ↔ x ∈ l := by
  intro l
  induction l with
  | nil => simp [insSort]
  | cons a l ih =>
    simp only [insSort, mem_insertSorted, List.mem_cons, ih]

theorem insSort_eq_nil_iff {α : Type} (le : α → α → Bool) (l : List α) :
    insSort le l = [] ↔ l = [] := by
  cases l with
  | nil => simp [insSort]
  | cons a l =>
    constructor
    · intro h
      have : a ∈ insSort le (a :: l) := by
        rw [mem_insSort]; exact List.mem_cons_self a l
      rw [h] at this
      exact absurd this (List.not_mem_nil a)
    · intro h; exact absurd h (List.cons_ne_nil a l)

theorem pairwise_insertSorted {α : Type} (le : α → α → Bool)
    (htot : ∀ a b, le a b = true ∨ le b a = true)
    (htrans : ∀ a b c, le a b = true → le b c = true → le a c = true) (a : α) :
    ∀ l : List α, List.Pairwise (fun x y => le x y = true) l →
      List.Pairwise (fun x y => le x y = true) (insertSorted le a l) := by
  intro l
  induction l with
  | nil => intro _; simp [insertSorted]
  | cons b l ih =>
    intro hp
    rcases List.pairwise_cons.mp hp with ⟨hb, hl⟩
    by_cases h : le a b = true
    · simp only [insertSorted, h, if_true]
      refine List.pairwise_cons.mpr ⟨?_, hp⟩
      intro x hx
      rcases List.mem_cons.mp hx with rfl | hx
      · exact h
      · exact htrans a b x h (hb x hx)
    · simp only [insertSorted, h, if_false]
      refine List.pairwise_cons.mpr ⟨?_, ih hl⟩
      intro x hx
      rcases (mem_insertSorted le a x l).mp hx with rfl | hx
      · rcases htot x b with hxb | hbx
        · exact absurd hxb h
        · exact hbx
      · exact hb x hx

theorem pairwise_insSort {α : Type} (le : α → α → Bool)
    (htot : ∀ a b, le a b = true ∨ le b a = true)
    (htrans : ∀ a b c, le a b = true → le b c = true → le a c = true) :
    ∀ l : List α, List.Pairwise (fun x y => le x y = true) (insSort le l) := by
  intro l
  induction l with
  | nil => simp [insSort]
  | cons a l ih => exact pairwise_insertSorted le htot htrans a _ ih

/-- The head of a stably sorted list is `≤` every element of the list. -/

theorem insSort_head_min {α : Type} (le : α → α → Bool)
    (htot : ∀ a b, le a b = true ∨ le b a = true)
    (htrans : ∀ a b c, le a b = true → le b c = true → le a c = true)
    (l : List α) (s : α) (rest : List α) (hs : insSort le l = s :: rest) :
    ∀ x ∈ l, le s x = true := by
  intro x hx
  have hmem : x ∈ s :: rest := hs ▸ (mem_insSort le x l).mpr hx
  rcases List.mem_cons.mp hmem with rfl | hx'
  · rcases htot x x with h | h <;> exact h
  · have hp := pairwise_insSort le htot htrans l
    rw [hs] at hp
    exact (List.pairwise_cons.mp hp).1 x hx'

theorem list_contains_iff_mem (l : List ℕ) (i : ℕ) :
    l.contains i = true ↔ i ∈ l := by
  simp

theorem leDist_total (a b : Candidate) : leDist a b = true ∨ leDist b a = true := by
  unfold leDist
  rcases le_total a.distance b.distance with h | h
  · left; exact decide_eq_true h
  · right; exact decide_eq_true h

theorem leDist_trans (a b c : Candidate) (h1 : leDist a b = true)
    (h2 : leDist b c = true) : leDist a c = true := by
  unfold leDist at h1 h2 ⊢
  exact decide_eq_true (le_trans (of_decide_eq_true h1) (of_decide_eq_true h2))

theorem leUsage_total (a b : Candidate) : leUsage a b = true ∨ leUsage b a = true := by
  unfold leUsage
  rcases Nat.lt_trichotomy a.usage b.usage with h | h | h
  · left; exact decide_eq_true (Or.inl h)
  · rcases le_total a.originalDistance b.originalDistance with h2 | h2
    · left; exact decide_eq_true (Or.inr ⟨h, h2⟩)
    · right; exact decide_eq_true (Or.inr ⟨h.symm, h2⟩)
  · right; exact decide_eq_true (Or.inl h)

theorem leUsage_trans (a b c : Candidate) (h1 : leUsage a b = true)
    (h2 : leUsage b c = true) : leUsage a c = true := by
  unfold leUsage at h1 h2 ⊢
  rcases of_decide_eq_true h1 with h1 | ⟨h1e, h1d⟩ <;>
    rcases of_decide_eq_true h2 with h2 | ⟨h2e, h2d⟩
  · exact decide_eq_true (Or.inl (h1.trans h2))
  · exact decide_eq_true (Or.inl (h2e ▸ h1))
  · exact decide_eq_true (Or.inl (h1e ▸ h2))
  · exact decide_eq_true (Or.inr ⟨h1e.trans h2e, h1d.trans h2d⟩)

/-! ### Structural lemmas about the matcher -/

theorem selectFromCandidates_mem (candidates : List Candidate)
    (h : candidates ≠ []) :
    selectFromCandidates candidates ∈ candidates.map Candidate.index := by
  unfold selectFromCandidates
  have hsorted : ∀ x, x ∈ insSort leDist candidates → x ∈ candidates :=
    fun x hx => (mem_insSort leDist x candidates).mp hx
  have htop : ∀ x, x ∈ (insSort leDist candidates).take
      (min 20 (insSort leDist candidates).length) → x ∈ candidates :=
    fun x hx => hsorted x (List.mem_of_mem_take hx)
  cases htops : (insSort leDist candidates).take
      (min 20 (insSort leDist candidates).length) with
  | nil =>
    -- impossible: candidates nonempty, so the sorted list and its top are nonempty
    exfalso
    have hne : insSort leDist candidates ≠ [] := by
      intro hnil
      exact h ((insSort_eq_nil_iff leDist candidates).mp hnil)
    have hlen : 0 < (insSort leDist candidates).length := List.length_pos.mpr hne
    have : 0 < min 20 (insSort leDist candidates).length := lt_min (by norm_num) hlen
    have := List.length_take (min 20 (insSort leDist candidates).length)
      (insSort leDist candidates)
    rw [htops] at this
    simp only [List.length_nil] at this
    omega
  | cons t0 ts =>
    cases ts with
    | nil =>
      simp only [htops]
      exact List.mem_map.mpr ⟨t0, htop t0 (htops ▸ List.mem_cons_self t0 []), rfl⟩
    | cons t1 ts' =>
      simp only [htops]
      have htop' : ∀ x, x ∈ t0 :: t1 :: ts' → x ∈ candidates := by
        intro x hx; exact htop x (htops ▸ hx)
      cases hsim : insSort leUsage ((t0 :: t1 :: ts').filter
          (fun c => decide (c.distance ≤ t0.distance * 2))) with
      | nil =>
        simp only [hsim]
        exact List.mem_map.mpr ⟨t0, htop' t0 (List.mem_cons_self _ _), rfl⟩
      | cons s0 srest =>
        simp only [hsim]
        refine List.mem_map.mpr ⟨s0, ?_, rfl⟩
        have hmem : s0 ∈ insSort leUsage ((t0 :: t1 :: ts').filter
            (fun c => decide (c.distance ≤ t0.distance * 2))) := by
          rw [hsim]; exact List.mem_cons_self _ _
        have hmem' := (mem_insSort leUsage s0 _).mp hmem
        exact htop' s0 (List.mem_filter.mp hmem').1

theorem AppJsx.buildCandidates_not_excluded (targetColor : Color)
    (usageCount : ℕ → ℕ) (excludedIndices : Finset ℕ) (diversityBonus : ℚ)
    (availableTileIndices : Option (List ℕ)) :
    ∀ (i : ℕ) (cols : List Color) (c : Candidate),
      c ∈ AppJsx.buildCandidates targetColor usageCount excludedIndices
        diversityBonus availableTileIndices i cols →
      c.index ∉ excludedIndices := by
  intro i cols
  induction cols generalizing i with
  | nil => intro c hc; simp [AppJsx.buildCandidates] at hc
  | cons color rest ih =>
    intro c hc
    unfold AppJsx.buildCandidates at hc
    rcases List.mem_append.mp hc with hhead | htail
    · by_cases he : i ∈ excludedIndices
      · rw [if_pos he] at hhead
        exact absurd hhead (List.not_mem_nil c)
      · rw [if_neg he] at hhead
        by_cases ha : allowPass availableTileIndices i = false
        · rw [if_pos ha] at hhead
          exact absurd hhead (List.not_mem_nil c)
        · rw [if_neg ha] at hhead
          simp only [List.mem_singleton] at hhead
          subst hhead
          exact he
    · exact ih (i + 1) c htail

theorem fallbackIndex_not_excluded (excludedIndices : Finset ℕ)
    (avail : List ℕ) (i : ℕ) (hi : i ∈ avail) (hie : i ∉ excludedIndices) :
    fallbackIndex excludedIndices (some avail) ∉ excludedIndices := by
  unfold fallbackIndex
  have hlen : avail.length > 0 := List.length_pos.mpr (List.ne_nil_of_mem hi)
  simp only [if_pos hlen]
  have hsome : (avail.find? (fun idx => decide (idx ∉ excludedIndices))).isSome := by
    rw [List.find?_isSome]
    exact ⟨i, hi, decide_eq_true hie⟩
  cases hfind : avail.find? (fun idx => decide (idx ∉ excludedIndices)) with
  | none => rw [hfind] at hsome; simp at hsome
  | some j =>
    simp only []
    have hj := List.find?_some hfind
    simp only [decide_eq_true_eq] at hj
    exact hj

theorem mainPhoto_mem_excluded (images : List String) (currentFilename : String)
    (i : ℕ) (h : images.findIdx? (fun f => decide (f = currentFilename)) = some i) :
    i ∈ mainPhotoExcludedIndices images currentFilename := by
  unfold mainPhotoExcludedIndices
  rw [h]
  exact Finset.mem_singleton_self i

/-! ### Claim C1 -/

/-- C1 (amended).  The hero photo's index, when found in `images`, is always
a member of the excluded set handed to the matcher; and `findBestMatch`
never returns an excluded index provided the candidate list is non-empty or
the allow-list contains some non-excluded id.  (The original claim is false
on the last-resort path: when every allow-listed id is excluded — or the
allow-list is absent and no candidate survives — the matcher returns the
hard-coded index `0` even if `0` is excluded; see the counterexample.) -/

theorem C1_hero_never_tiles_itself_amended
    (images : List String) (currentFilename : String) (heroIdx : ℕ)
    (hfound : images.findIdx? (fun f => decide (f = currentFilename)) = some heroIdx)
    (targetColor : Color) (photoColors : List Color) (usageCount : ℕ → ℕ)
    (excludedIndices : Finset ℕ) (diversityBonus : ℚ)
    (availableTileIndices : Option (List ℕ))
    (hok : AppJsx.buildCandidates targetColor usageCount excludedIndices
        diversityBonus availableTileIndices 0 photoColors ≠ [] ∨
      ∃ avail, availableTileIndices = some avail ∧
        ∃ i ∈ avail, i ∉ excludedIndices) :
    heroIdx ∈ mainPhotoExcludedIndices images currentFilename ∧
    AppJsx.findBestMatch targetColor photoColors usageCount excludedIndices
      diversityBonus availableTileIndices ∉ excludedIndices := by
  refine ⟨mainPhoto_mem_excluded images currentFilename heroIdx hfound, ?_⟩
  unfold AppJsx.findBestMatch
  cases hcand : AppJsx.buildCandidates targetColor usageCount excludedIndices
      diversityBonus availableTileIndices 0 photoColors with
  | nil =>
    simp only []
    rcases hok with hne | ⟨avail, havail, i, hi, hie⟩
    · exact absurd hcand hne
    · subst havail
      exact fallbackIndex_not_excluded excludedIndices avail i hi hie
  | cons c0 cs =>
    simp only []
    have hmem := selectFromCandidates_mem (c0 :: cs) (List.cons_ne_nil c0 cs)
    rcases List.mem_map.mp hmem with ⟨c, hc, hidx⟩
    rw [← hidx]
    exact AppJsx.buildCandidates_not_excluded targetColor usageCount
      excludedIndices diversityBonus availableTileIndices 0 photoColors c
      (hcand ▸ hc)

/-- C1 counterexample.  With a one-photo pool whose only index `0` is the
excluded hero and no allow-list, no candidate survives filtering and the
last-resort fallback returns `0` — an excluded index — refuting "for every
target color, ledger state, allow-list, and excluded set, findBestMatch
never returns an excluded index". -/

theorem C1_counterexample :
    AppJsx.findBestMatch ⟨0, 0, 0⟩ [⟨0, 0, 0⟩] (fun _ => 0) {0} 5000 none
      ∈ ({0} : Finset ℕ) := by
  have hcand : AppJsx.buildCandidates ⟨0, 0, 0⟩ (fun _ => 0) {0} 5000 none
      0 [⟨0, 0, 0⟩] = [] := by
    unfold AppJsx.buildCandidates
    rw [if_pos (Finset.mem_singleton_self 0)]
    rfl
  unfold AppJsx.findBestMatch
  rw [hcand]
  simp only [fallbackIndex]
  exact Finset.mem_singleton_self 0

/-- C1 witness: the amended theorem applied at a concrete input. -/

theorem C1_witness :
    (0 : ℕ) ∈ mainPhotoExcludedIndices ["a.jpg", "b.jpg"] "a.jpg" ∧
    AppJsx.findBestMatch ⟨0, 0, 0⟩ [] (fun _ => 0) {0} 5000 (some [1])
      ∉ ({0} : Finset ℕ) :=
  C1_hero_never_tiles_itself_amended ["a.jpg", "b.jpg"] "a.jpg" 0 (by decide)
    ⟨0, 0, 0⟩ [] (fun _ => 0) {0} 5000 (some [1])
    (Or.inr ⟨[1], rfl, 1, by decide, by decide⟩)

/-! ### Claim C8 -/

theorem maskScan_none_of_no_transparent (x y : ℚ) (maskData : Option ImageData) :
    ∀ pairs : List (ℚ × ℚ),
      (∀ p ∈ pairs, isTransparentInMask (x + p.2) (y + p.1) maskData = false) →
      maskScan x y maskData pairs none = none := by
  intro pairs
  induction pairs with
  | nil => intro _; rfl
  | cons p rest ih =>
    intro hall
    cases p with
    | mk dy dx =>
      unfold maskScan
      have hp := hall (dy, dx) (List.mem_cons_self _ _)
      simp only at hp
      rw [hp]
      simp only [Bool.false_eq_true, if_false]
      exact ih (fun q hq => hall q (List.mem_cons_of_mem _ hq))

/-- C8.  (a) A region whose center samples a transparent mask pixel
resolves to exactly `MIN_OPACITY`.  (b) A center none of whose search-grid
samples (within the capped search radius) is transparent resolves to
exactly `MAX_OPACITY`.  (c) Without a mask every region receives
`MAX_OPACITY`.  (d) Out-of-bounds coordinates are never transparent. -/

theorem C8_mask_inversion_exactness :
    (∀ (x y cw ch avgTile : ℚ) (img : ImageData),
      isTransparentInMask x y (some img) = true →
      calculateTileOpacity x y cw ch (some img) avgTile = MIN_OPACITY) ∧
    (∀ (x y cw ch avgTile : ℚ) (img : ImageData),
      isTransparentInMask x y (some img) = false →
      (∀ p ∈ scanPairs (min (avgTile * OPACITY_TRANSITION_TILES * 3)
          ((max img.width img.height : ℕ) * (3/10))),
        isTransparentInMask (x + p.2) (y + p.1) (some img) = false) →
      calculateTileOpacity x y cw ch (some img) avgTile = MAX_OPACITY) ∧
    (∀ x y cw ch avgTile : ℚ,
      calculateTileOpacity x y cw ch none avgTile = MAX_OPACITY) ∧
    (∀ (x y : ℚ) (img : ImageData),
      (⌊x⌋ < 0 ∨ ⌊x⌋ ≥ img.width ∨ ⌊y⌋ < 0 ∨ ⌊y⌋ ≥ img.height) →
      isTransparentInMask x y (some img) = false) := by
  refine ⟨?_, ?_, ?_, ?_⟩
  · intro x y cw ch avgTile img htr
    unfold calculateTileOpacity
    rw [htr]
    simp
  · intro x y cw ch avgTile img hop hall
    unfold calculateTileOpacity
    rw [hop]
    simp only [Bool.false_eq_true, if_false]
    unfold distanceToTransparentMask
    rw [hop]
    simp only [Bool.false_eq_true, if_false]
    rw [maskScan_none_of_no_transparent x y (some img) _ hall]
  · intro x y cw ch avgTile
    rfl
  · intro x y img hob
    unfold isTransparentInMask
    simp only []
    rw [if_pos hob]

/-- C8 witness: all four conjuncts at concrete inputs — a fully
transparent 1×1 mask, a fully opaque 10×10 mask searched with radius 1,
the absent mask, and an out-of-bounds coordinate. -/

theorem C8_witness :
    calculateTileOpacity 0 0 50 50 (some ⟨1, 1, fun _ => 0⟩) 1 = MIN_OPACITY ∧
    calculateTileOpacity 0 0 50 50 (some ⟨10, 10, fun _ => 255⟩) (1/3) = MAX_OPACITY ∧
    calculateTileOpacity 0 0 50 50 none 1 = MAX_OPACITY ∧
    isTransparentInMask (-1) 0 (some ⟨10, 10, fun _ => 0⟩) = false := by
  refine ⟨?_, ?_, ?_, ?_⟩
  · apply C8_mask_inversion_exactness.1
    norm_num [isTransparentInMask]
  · apply C8_mask_inversion_exactness.2.1
    · norm_num [isTransparentInMask]
    · intro p hp
      have hr : min ((1/3 : ℚ) * OPACITY_TRANSITION_TILES * 3)
          ((max (10:ℕ) 10 : ℕ) * (3/10)) = 1 := by
        norm_num [OPACITY_TRANSITION_TILES]
      rw [hr] at hp
      have hoffs : searchOffsets 1 = [-1, 0, 1] := by
        have h3 : (⌊(2:ℚ) * 1⌋ + 1).toNat = 3 := by
          rw [show ⌊(2:ℚ) * 1⌋ = 2 by norm_num]
          rfl
        rw [searchOffsets, h3]
        norm_num [List.range_succ]
      have hpairs : scanPairs 1 = [(-1, -1), (-1, 0), (-1, 1), (0, -1), (0, 0),
          (0, 1), (1, -1), (1, 0), (1, 1)] := by
        rw [scanPairs, hoffs]
        rfl
      rw [hpairs] at hp
      fin_cases hp <;> norm_num [isTransparentInMask]
  · exact C8_mask_inversion_exactness.2.2.1 0 0 50 50 1
  · apply C8_mask_inversion_exactness.2.2.2
    norm_num

/-! ### Claim C4 -/

/-- C4 (amended).  `calculateTileOpacity` always returns a value in
`[MIN_OPACITY, MAX_OPACITY]`; the final opacity stored on a hexagonal tile
(border fade multiplied in) always lies in `[0, MAX_OPACITY]` — but can
drop below `MIN_OPACITY`, reaching `0` at the hero image's exact edge, as
the counterexample shows.  (The border fade is only applied to centers on
the hero image, where the distance to its border is non-negative.) -/

theorem C4_opacity_bounds_amended :
    (∀ (x y cw ch avgTile : ℚ) (maskData : Option ImageData),
      MIN_OPACITY ≤ calculateTileOpacity x y cw ch maskData avgTile ∧
      calculateTileOpacity x y cw ch maskData avgTile ≤ MAX_OPACITY) ∧
    (∀ (centerX centerY mainImgX mainImgY mainImgWidth mainImgHeight : ℚ)
        (maskData : Option ImageData) (avgTile borderW : ℚ), 0 < borderW →
      0 ≤ hexTileOpacity centerX centerY mainImgX mainImgY mainImgWidth
          mainImgHeight maskData avgTile borderW ∧
      hexTileOpacity centerX centerY mainImgX mainImgY mainImgWidth
          mainImgHeight maskData avgTile borderW ≤ MAX_OPACITY) := by
  have hminmax : MIN_OPACITY ≤ MAX_OPACITY := by norm_num [MIN_OPACITY, MAX_OPACITY]
  have hbounds : ∀ (x y cw ch avgTile : ℚ) (maskData : Option ImageData),
      MIN_OPACITY ≤ calculateTileOpacity x y cw ch maskData avgTile ∧
      calculateTileOpacity x y cw ch maskData avgTile ≤ MAX_OPACITY := by
    intro x y cw ch avgTile maskData
    unfold calculateTileOpacity
    cases maskData with
    | none => exact ⟨hminmax, le_refl _⟩
    | some img =>
      simp only []
      by_cases htr : isTransparentInMask x y (some img) = true
      · rw [if_pos htr]
        exact ⟨le_refl _, hminmax⟩
      · rw [if_neg htr]
        cases distanceToTransparentMask x y (some img)
            (avgTile * OPACITY_TRANSITION_TILES * 3) with
        | none => exact ⟨hminmax, le_refl _⟩
        | some d =>
          simp only []
          constructor
          · exact le_max_left _ _
          · exact max_le hminmax (min_le_left _ _)
  refine ⟨hbounds, ?_⟩
  intro centerX centerY mainImgX mainImgY mainImgWidth mainImgHeight maskData
    avgTile borderW hbw
  unfold hexTileOpacity
  by_cases hon : mainImgX ≤ centerX ∧ centerX ≤ mainImgX + mainImgWidth ∧
      mainImgY ≤ centerY ∧ centerY ≤ mainImgY + mainImgHeight
  · rw [if_pos hon]
    obtain ⟨h1, h2, h3, h4⟩ := hon
    have hop := hbounds (centerX - mainImgX) (centerY - mainImgY)
      mainImgWidth mainImgHeight avgTile maskData
    have hopnn : 0 ≤ calculateTileOpacity (centerX - mainImgX) (centerY - mainImgY)
        mainImgWidth mainImgHeight maskData avgTile := by
      have : (0:ℚ) ≤ MIN_OPACITY := by norm_num [MIN_OPACITY]
      linarith [hop.1]
    have hdnn : 0 ≤ min (min (centerX - mainImgX) (mainImgWidth - (centerX - mainImgX)))
        (min (centerY - mainImgY) (mainImgHeight - (centerY - mainImgY))) := by
      refine le_min (le_min (by linarith) (by linarith)) (le_min (by linarith) (by linarith))
    by_cases hlt : min (min (centerX - mainImgX) (mainImgWidth - (centerX - mainImgX)))
        (min (centerY - mainImgY) (mainImgHeight - (centerY - mainImgY))) < borderW
    · rw [if_pos hlt]
      constructor
      · positivity
      · have hfac : (min (min (centerX - mainImgX) (mainImgWidth - (centerX - mainImgX)))
            (min (centerY - mainImgY) (mainImgHeight - (centerY - mainImgY)))) / borderW ≤ 1 := by
          rw [div_le_one hbw]
          exact le_of_lt hlt
        have hfacnn : 0 ≤ (min (min (centerX - mainImgX) (mainImgWidth - (centerX - mainImgX)))
            (min (centerY - mainImgY) (mainImgHeight - (centerY - mainImgY)))) / borderW :=
          div_nonneg hdnn (le_of_lt hbw)
        calc calculateTileOpacity (centerX - mainImgX) (centerY - mainImgY)
              mainImgWidth mainImgHeight maskData avgTile *
              ((min (min (centerX - mainImgX) (mainImgWidth - (centerX - mainImgX)))
                (min (centerY - mainImgY) (mainImgHeight - (centerY - mainImgY)))) / borderW)
            ≤ calculateTileOpacity (centerX - mainImgX) (centerY - mainImgY)
              mainImgWidth mainImgHeight maskData avgTile * 1 := by
              exact mul_le_mul_of_nonneg_left hfac hopnn
          _ = calculateTileOpacity (centerX - mainImgX) (centerY - mainImgY)
              mainImgWidth mainImgHeight maskData avgTile := mul_one _
          _ ≤ MAX_OPACITY := hop.2
    · rw [if_neg hlt]
      exact ⟨hopnn, hop.2⟩
  · rw [if_neg hon]
    constructor
    · norm_num [MAX_OPACITY]
    · exact le_refl _

/-- C4 counterexample.  A hexagonal tile centered exactly on the hero
image's left edge (no mask, so the mask stage yields `MAX_OPACITY`) has
border-fade factor `0`, and its stored opacity is `0 < MIN_OPACITY`,
refuting "the final opacity stored on every hexagonal tile … is always at
least MIN_OPACITY". -/

theorem C4_counterexample :
    hexTileOpacity 10 60 10 10 100 100 none 2 3 = 0 ∧
    (0 : ℚ) < MIN_OPACITY := by
  constructor
  · unfold hexTileOpacity
    rw [if_pos (by norm_num)]
    norm_num [calculateTileOpacity]
  · norm_num [MIN_OPACITY]

/-- C4 witness: the amended theorem applied at a concrete input. -/

theorem C4_witness :
    (MIN_OPACITY ≤ calculateTileOpacity 5 5 100 100 none 2 ∧
      calculateTileOpacity 5 5 100 100 none 2 ≤ MAX_OPACITY) ∧
    (0 ≤ hexTileOpacity 10 60 10 10 100 100 none 2 3 ∧
      hexTileOpacity 10 60 10 10 100 100 none 2 3 ≤ MAX_OPACITY) :=
  ⟨C4_opacity_bounds_amended.1 5 5 100 100 2 none,
   C4_opacity_bounds_amended.2 10 60 10 10 100 100 none 2 3 (by norm_num)⟩

/-! ### Constant-raster lemmas for the quadtree -/

theorem pixelChannel_const (w h : ℕ) (v : ℚ) (cw : ℕ) (px py : ℚ) (c : ℕ) :
    pixelChannel (constImg w h v) cw px py c = v := rfl

/-- On a uniform raster every region's color variance is exactly `0`. -/

theorem calculateVariance_const (w h cw : ℕ) (v x y size : ℚ) :
    calculateVariance (constImg w h v) x y size cw = 0 := by
  simp only [calculateVariance, pixelChannel_const, Finset.sum_const,
    Finset.card_range, smul_eq_mul]
  set m := stepsBetween y (min (y + size) (((constImg w h v).height : ℕ) : ℚ)) with hm
  set n := stepsBetween x (min (x + size) ((cw : ℕ) : ℚ)) with hn
  by_cases hc : m * n = 0
  · rw [if_pos hc]
  · rw [if_neg hc]
    have hne : ((m * n : ℕ) : ℚ) ≠ 0 := by exact_mod_cast hc
    push_cast at hne ⊢
    field_simp
    ring

/-- On the uniform 128-gray raster every sampled average color is
`(128, 128, 128)` (also the no-sample default). -/

theorem getAreaColor_const (w h cw : ℕ) (x y size : ℚ) :
    getAreaColor (constImg w h 128) x y size cw = ⟨128, 128, 128⟩ := by
  have hround : jsRound 128 = 128 := by
    unfold jsRound
    rw [show ⌊(128 : ℚ) + 1/2⌋ = 128 by
      rw [Int.floor_eq_iff] <;> norm_num]
    norm_num
  have key : ∀ n : ℕ, ¬ n = 0 → jsRound ((n : ℚ) * 128 / (n : ℚ)) = 128 := by
    intro n hn
    rw [mul_div_cancel_left₀ _ (by exact_mod_cast hn : (n : ℚ) ≠ 0)]
    exact hround
  simp only [getAreaColor, pixelChannel_const, Finset.sum_const, nsmul_eq_mul]
  split
  · rfl
  · next hcard =>
    congr 1 <;> exact key _ hcard

/-- On the uniform 128-gray raster, `buildNode` *is* the pure
max-size-rule splitter: the variance disjunct of the split condition is
`800 < 0` and never fires, so every split is forced by the max-size rule
alone. -/

theorem buildNode_const_eq_maxSplit (w h : ℕ) (minT maxT : ℚ) :
    ∀ (fuel : ℕ) (x y size : ℚ),
      buildNode (constImg w h 128) w h minT maxT fuel x y size =
      maxSplitNode w h minT maxT fuel x y size := by
  intro fuel
  induction fuel with
  | zero => intro x y size; rfl
  | succ fuel ih =>
    intro x y size
    unfold buildNode maxSplitNode
    by_cases hg : (w : ℚ) ≤ x ∨ (h : ℚ) ≤ y
    · rw [if_pos hg, if_pos hg]
    · rw [if_neg hg, if_neg hg]
      simp only []
      by_cases ha : min size (min ((w : ℚ) - x) ((h : ℚ) - y)) ≤ 0
      · rw [if_pos ha, if_pos ha]
      · rw [if_neg ha, if_neg ha]
        have hvar := calculateVariance_const w h w 128 x y
          (min size (min ((w : ℚ) - x) ((h : ℚ) - y)))
        have hcond : (minT < min size (min ((w : ℚ) - x) ((h : ℚ) - y)) ∧
            (VARIANCE_THRESHOLD < calculateVariance (constImg w h 128) x y
              (min size (min ((w : ℚ) - x) ((h : ℚ) - y))) w ∨
              maxT < min size (min ((w : ℚ) - x) ((h : ℚ) - y)))) ↔
            (minT < min size (min ((w : ℚ) - x) ((h : ℚ) - y)) ∧
              maxT < min size (min ((w : ℚ) - x) ((h : ℚ) - y))) := by
          rw [hvar]
          constructor
          · rintro ⟨h1, h2 | h2⟩
            · exact absurd h2 (by norm_num [VARIANCE_THRESHOLD])
            · exact ⟨h1, h2⟩
          · rintro ⟨h1, h2⟩
            exact ⟨h1, Or.inr h2⟩
        by_cases hs : minT < min size (min ((w : ℚ) - x) ((h : ℚ) - y)) ∧
            maxT < min size (min ((w : ℚ) - x) ((h : ℚ) - y))
        · rw [if_pos (hcond.mpr hs), if_pos hs, ih, ih, ih, ih]
        · rw [if_neg (fun hc => hs (hcond.mp hc)), if_neg hs,
            getAreaColor_const]

/-- On the uniform 128-gray raster the full partitioner equals the pure
max-size-rule partitioner. -/

theorem buildQuadtreeLeaves_const_eq_maxSplit (w h : ℕ) :
    buildQuadtreeLeaves (constImg w h 128) w h = maxSplitLeaves w h := by
  unfold buildQuadtreeLeaves maxSplitLeaves
  exact buildNode_const_eq_maxSplit w h _ _ _ 0 0 _

/-- Containment: every leaf of a subtree lies inside that subtree's square
and inside the raster, with positive size — for an arbitrary raster
(independent of how the split decisions fall). -/

theorem buildNode_contained (imageData : ImageData) (w h : ℕ) (minT maxT : ℚ) :
    ∀ (fuel : ℕ) (x y size : ℚ), 0 < size →
      ∀ l ∈ buildNode imageData w h minT maxT fuel x y size,
        x ≤ l.x ∧ l.x + l.size ≤ x + size ∧ y ≤ l.y ∧ l.y + l.size ≤ y + size ∧
        0 < l.size ∧ l.x < w ∧ l.y < h ∧ l.x + l.size ≤ w ∧ l.y + l.size ≤ h := by
  intro fuel
  induction fuel with
  | zero => intro x y size _ l hl; exact absurd hl (List.not_mem_nil l)
  | succ fuel ih =>
    intro x y size hsize l hl
    unfold buildNode at hl
    by_cases hg : (w : ℚ) ≤ x ∨ (h : ℚ) ≤ y
    · rw [if_pos hg] at hl
      exact absurd hl (List.not_mem_nil l)
    · rw [if_neg hg] at hl
      push_neg at hg
      simp only [] at hl
      by_cases ha : min size (min ((w : ℚ) - x) ((h : ℚ) - y)) ≤ 0
      · rw [if_pos ha] at hl
        exact absurd hl (List.not_mem_nil l)
      · rw [if_neg ha] at hl
        push_neg at ha
        split at hl
        · have hhalf : 0 < size / 2 := by linarith
          rcases List.mem_append.mp hl with hl3 | hl4
          · rcases List.mem_append.mp hl3 with hl12 | hl3
            · rcases List.mem_append.mp hl12 with hl1 | hl2
              · rcases ih x y (size / 2) hhalf l hl1 with
                  ⟨h1, h2, h3, h4, h5, h6, h7, h8, h9⟩
                exact ⟨h1, by linarith, h3, by linarith, h5, h6, h7, h8, h9⟩
              · rcases ih (x + size / 2) y (size / 2) hhalf l hl2 with
                  ⟨h1, h2, h3, h4, h5, h6, h7, h8, h9⟩
                exact ⟨by linarith, by linarith, h3, by linarith, h5, h6, h7, h8, h9⟩
            · rcases ih x (y + size / 2) (size / 2) hhalf l hl3 with
                ⟨h1, h2, h3, h4, h5, h6, h7, h8, h9⟩
              exact ⟨h1, by linarith, by linarith, by linarith, h5, h6, h7, h8, h9⟩
          · rcases ih (x + size / 2) (y + size / 2) (size / 2) hhalf l hl4 with
              ⟨h1, h2, h3, h4, h5, h6, h7, h8, h9⟩
            exact ⟨by linarith, by linarith, by linarith, by linarith, h5, h6, h7,
              h8, h9⟩
        · simp only [List.mem_singleton] at hl
          subst hl
          simp only []
          have hle1 : min size (min ((w : ℚ) - x) ((h : ℚ) - y)) ≤ size :=
            min_le_left _ _
          have hle2 : min size (min ((w : ℚ) - x) ((h : ℚ) - y)) ≤ (w : ℚ) - x :=
            le_trans (min_le_right _ _) (min_le_left _ _)
          have hle3 : min size (min ((w : ℚ) - x) ((h : ℚ) - y)) ≤ (h : ℚ) - y :=
            le_trans (min_le_right _ _) (min_le_right _ _)
          exact ⟨le_refl x, by linarith, le_refl y, by linarith, ha, hg.1, hg.2,
            by linarith, by linarith⟩

/-- Two leaves separated along an axis are disjoint. -/

theorem leafDisjoint_of_separated (a b : QLeaf)
    (hsep : a.x + a.size ≤ b.x ∨ b.x + b.size ≤ a.x ∨
      a.y + a.size ≤ b.y ∨ b.y + b.size ≤ a.y) : leafDisjoint a b := by
  intro px py hpt
  rcases hpt with ⟨⟨ha1, ha2, ha3, ha4⟩, ⟨hb1, hb2, hb3, hb4⟩⟩
  rcases hsep with hs | hs | hs | hs <;> linarith

/-- Pairwise disjointness of the leaves of a subtree, for an arbitrary
raster: sibling quadrants occupy disjoint squares and leaves stay inside
their subtree's square. -/

theorem buildNode_pairwise_disjoint (imageData : ImageData) (w h : ℕ)
    (minT maxT : ℚ) :
    ∀ (fuel : ℕ) (x y size : ℚ), 0 < size →
      List.Pairwise leafDisjoint (buildNode imageData w h minT maxT fuel x y size) := by
  intro fuel
  induction fuel with
  | zero => intro x y size _; exact List.Pairwise.nil
  | succ fuel ih =>
    intro x y size hsize
    unfold buildNode
    by_cases hg : (w : ℚ) ≤ x ∨ (h : ℚ) ≤ y
    · rw [if_pos hg]; exact List.Pairwise.nil
    · rw [if_neg hg]
      simp only []
      by_cases ha : min size (min ((w : ℚ) - x) ((h : ℚ) - y)) ≤ 0
      · rw [if_pos ha]; exact List.Pairwise.nil
      · rw [if_neg ha]
        split
        · have hhalf : 0 < size / 2 := by linarith
          have c1 := buildNode_contained imageData w h minT maxT fuel
            x y (size / 2) hhalf
          have c2 := buildNode_contained imageData w h minT maxT fuel
            (x + size / 2) y (size / 2) hhalf
          have c3 := buildNode_contained imageData w h minT maxT fuel
            x (y + size / 2) (size / 2) hhalf
          have c4 := buildNode_contained imageData w h minT maxT fuel
            (x + size / 2) (y + size / 2) (size / 2) hhalf
          rw [List.pairwise_append]
          refine ⟨?_, ?_, ?_⟩
          · rw [List.pairwise_append]
            refine ⟨?_, ?_, ?_⟩
            · rw [List.pairwise_append]
              refine ⟨ih x y (size / 2) hhalf,
                ih (x + size / 2) y (size / 2) hhalf, ?_⟩
              intro a haa b hbb
              rcases c1 a haa with ⟨_, ha2, _, _, _, _, _, _, _⟩
              rcases c2 b hbb with ⟨hb1, _, _, _, _, _, _, _, _⟩
              exact leafDisjoint_of_separated a b (Or.inl (le_trans ha2 hb1))
            · exact ih x (y + size / 2) (size / 2) hhalf
            · intro a haa b hbb
              rcases List.mem_append.mp haa with ha' | ha'
              · rcases c1 a ha' with ⟨_, _, _, ha4, _, _, _, _, _⟩
                rcases c3 b hbb with ⟨_, _, hb3, _, _, _, _, _, _⟩
                exact leafDisjoint_of_separated a b
                  (Or.inr (Or.inr (Or.inl (le_trans ha4 hb3))))
              · rcases c2 a ha' with ⟨_, _, _, ha4, _, _, _, _, _⟩
                rcases c3 b hbb with ⟨_, _, hb3, _, _, _, _, _, _⟩
                exact leafDisjoint_of_separated a b
                  (Or.inr (Or.inr (Or.inl (le_trans ha4 hb3))))
          · exact ih (x + size / 2) (y + size / 2) (size / 2) hhalf
          · intro a haa b hbb
            rcases c4 b hbb with ⟨hb1, _, hb3, _, _, _, _, _, _⟩
            rcases List.mem_append.mp haa with ha' | ha'
            · rcases List.mem_append.mp ha' with ha'' | ha''
              · rcases c1 a ha'' with ⟨_, ha2, _, _, _, _, _, _, _⟩
                exact leafDisjoint_of_separated a b (Or.inl (le_trans ha2 hb1))
              · rcases c2 a ha'' with ⟨_, _, _, ha4, _, _, _, _, _⟩
                exact leafDisjoint_of_separated a b
                  (Or.inr (Or.inr (Or.inl (le_trans ha4 hb3))))
            · rcases c3 a ha' with ⟨_, ha2, _, _, _, _, _, _, _⟩
              exact leafDisjoint_of_separated a b (Or.inl (le_trans ha2 hb1))
        · exact List.pairwise_singleton _ _

theorem clog2_512 : Nat.clog 2 512 = 9 := by
  have h1 : Nat.clog 2 512 ≤ 9 :=
    (Nat.le_pow_iff_clog_le (by norm_num)).mp (by norm_num)
  have h2 : ¬ Nat.clog 2 512 ≤ 8 := by
    intro hc
    have := (Nat.le_pow_iff_clog_le (by norm_num)).mpr hc
    norm_num at this
  omega

theorem clog2_17 : Nat.clog 2 17 = 5 := by
  have h1 : Nat.clog 2 17 ≤ 5 :=
    (Nat.le_pow_iff_clog_le (by norm_num)).mp (by norm_num)
  have h2 : ¬ Nat.clog 2 17 ≤ 4 := by
    intro hc
    have := (Nat.le_pow_iff_clog_le (by norm_num)).mpr hc
    norm_num at this
  omega

/-- On the 512×384 configuration (`minTileSize = 19.2`,
`maxTileSize = 38.4`), every leaf of the max-size-rule splitter below a
grid-aligned node of size `32·2^k` (`k ≤ 4`) has size exactly `32`: the
descent from the 512 root stops precisely at 32, the largest
power-of-two fraction of the root not exceeding the max-leaf bound. -/

theorem maxSplit512_leaf_sizes :
    ∀ (k : ℕ), k ≤ 4 → ∀ (fuel i j : ℕ), k + 1 ≤ fuel →
      ∀ l ∈ maxSplitNode 512 384 (96/5) (192/5) fuel
          ((32 : ℚ) * 2 ^ k * i) ((32 : ℚ) * 2 ^ k * j) ((32 : ℚ) * 2 ^ k),
        l.size = 32 := by
  intro k
  induction k with
  | zero =>
    intro _ fuel i j hf l hl
    cases fuel with
    | zero => omega
    | succ fuel =>
      unfold maxSplitNode at hl
      simp only [Nat.cast_ofNat] at hl
      by_cases hg : (512 : ℚ) ≤ (32 : ℚ) * 2 ^ 0 * i ∨
          (384 : ℚ) ≤ (32 : ℚ) * 2 ^ 0 * j
      · rw [if_pos hg] at hl
        exact absurd hl (List.not_mem_nil l)
      · rw [if_neg hg] at hl
        push_neg at hg
        have hi16 : i < 16 := by
          by_contra hcon
          push_neg at hcon
          have h16 : (16 : ℚ) ≤ i := by exact_mod_cast hcon
          have h1 := hg.1
          norm_num at h1
          linarith
        have hj12 : j < 12 := by
          by_contra hcon
          push_neg at hcon
          have h12 : (12 : ℚ) ≤ j := by exact_mod_cast hcon
          have h2 := hg.2
          norm_num at h2
          linarith
        have hiq : (i : ℚ) ≤ 15 := by exact_mod_cast Nat.lt_succ_iff.mp hi16
        have hjq : (j : ℚ) ≤ 11 := by exact_mod_cast Nat.lt_succ_iff.mp hj12
        rw [show min ((32 : ℚ) * 2 ^ 0)
            (min ((512 : ℚ) - (32 : ℚ) * 2 ^ 0 * i)
              ((384 : ℚ) - (32 : ℚ) * 2 ^ 0 * j)) = 32 by
          rw [min_eq_left]
          · norm_num
          · refine le_min (by norm_num; linarith) (by norm_num; linarith)] at hl
        rw [if_neg (by norm_num), if_neg (by norm_num)] at hl
        simp only [List.mem_singleton] at hl
        subst hl
        rfl
  | succ k ihk =>
    intro hk fuel i j hf l hl
    cases fuel with
    | zero => omega
    | succ fuel =>
      unfold maxSplitNode at hl
      simp only [Nat.cast_ofNat] at hl
      by_cases hg : (512 : ℚ) ≤ (32 : ℚ) * 2 ^ (k + 1) * i ∨
          (384 : ℚ) ≤ (32 : ℚ) * 2 ^ (k + 1) * j
      · rw [if_pos hg] at hl
        exact absurd hl (List.not_mem_nil l)
      · rw [if_neg hg] at hl
        push_neg at hg
        have hkk3 : k ≤ 3 := by omega
        have hwide : (64 : ℚ) ≤ (512 : ℚ) - (32 : ℚ) * 2 ^ (k + 1) * i ∧
            (64 : ℚ) ≤ (384 : ℚ) - (32 : ℚ) * 2 ^ (k + 1) * j := by
          interval_cases k
          · constructor
            · have hin : i < 8 := by
                by_contra hcon
                push_neg at hcon
                have hc : (8 : ℚ) ≤ i := by exact_mod_cast hcon
                have h1 := hg.1
                norm_num at h1
                linarith
              have hiq : (i : ℚ) ≤ 7 := by exact_mod_cast Nat.lt_succ_iff.mp hin
              norm_num
              linarith
            · have hjn : j < 6 := by
                by_contra hcon
                push_neg at hcon
                have hc : (6 : ℚ) ≤ j := by exact_mod_cast hcon
                have h2 := hg.2
                norm_num at h2
                linarith
              have hjq : (j : ℚ) ≤ 5 := by exact_mod_cast Nat.lt_succ_iff.mp hjn
              norm_num
              linarith
          · constructor
            · have hin : i < 4 := by
                by_contra hcon
                push_neg at hcon
                have hc : (4 : ℚ) ≤ i := by exact_mod_cast hcon
                have h1 := hg.1
                norm_num at h1
                linarith
              have hiq : (i : ℚ) ≤ 3 := by exact_mod_cast Nat.lt_succ_iff.mp hin
              norm_num
              linarith
            · have hjn : j < 3 := by
                by_contra hcon
                push_neg at hcon
                have hc : (3 : ℚ) ≤ j := by exact_mod_cast hcon
                have h2 := hg.2
                norm_num at h2
                linarith
              have hjq : (j : ℚ) ≤ 2 := by exact_mod_cast Nat.lt_succ_iff.mp hjn
              norm_num
              linarith
          · constructor
            · have hin : i < 2 := by
                by_contra hcon
                push_neg at hcon
                have hc : (2 : ℚ) ≤ i := by exact_mod_cast hcon
                have h1 := hg.1
                norm_num at h1
                linarith
              have hiq : (i : ℚ) ≤ 1 := by exact_mod_cast Nat.lt_succ_iff.mp hin
              norm_num
              linarith
            · have hjn : j < 2 := by
                by_contra hcon
                push_neg at hcon
                have hc : (2 : ℚ) ≤ j := by exact_mod_cast hcon
                have h2 := hg.2
                norm_num at h2
                linarith
              have hjq : (j : ℚ) ≤ 1 := by exact_mod_cast Nat.lt_succ_iff.mp hjn
              norm_num
              linarith
          · constructor
            · have hin : i < 1 := by
                by_contra hcon
                push_neg at hcon
                have hc : (1 : ℚ) ≤ i := by exact_mod_cast hcon
                have h1 := hg.1
                norm_num at h1
                linarith
              have hiq : (i : ℚ) ≤ 0 := by exact_mod_cast Nat.lt_succ_iff.mp hin
              norm_num
              linarith
            · have hjn : j < 1 := by
                by_contra hcon
                push_neg at hcon
                have hc : (1 : ℚ) ≤ j := by exact_mod_cast hcon
                have h2 := hg.2
                norm_num at h2
                linarith
              have hjq : (j : ℚ) ≤ 0 := by exact_mod_cast Nat.lt_succ_iff.mp hjn
              norm_num
              linarith
        have hs64 : (64 : ℚ) ≤ 32 * 2 ^ (k + 1) := by
          have h2k : (1 : ℚ) ≤ 2 ^ k := one_le_pow₀ (by norm_num)
          rw [pow_succ]
          nlinarith
        have hcond : ((96 : ℚ)/5 < min ((32 : ℚ) * 2 ^ (k + 1))
              (min ((512 : ℚ) - (32 : ℚ) * 2 ^ (k + 1) * i)
                ((384 : ℚ) - (32 : ℚ) * 2 ^ (k + 1) * j)) ∧
            (192 : ℚ)/5 < min ((32 : ℚ) * 2 ^ (k + 1))
              (min ((512 : ℚ) - (32 : ℚ) * 2 ^ (k + 1) * i)
                ((384 : ℚ) - (32 : ℚ) * 2 ^ (k + 1) * j))) := by
          constructor <;>
            exact lt_min (by linarith)
              (lt_min (by linarith [hwide.1]) (by linarith [hwide.2]))
        rw [if_neg (by
            intro hle
            have := lt_of_lt_of_le (lt_of_lt_of_le (by norm_num : (0:ℚ) < 64)
              hs64) (le_refl _)
            have h0 : (0 : ℚ) < min ((32 : ℚ) * 2 ^ (k + 1))
                (min ((512 : ℚ) - (32 : ℚ) * 2 ^ (k + 1) * i)
                  ((384 : ℚ) - (32 : ℚ) * 2 ^ (k + 1) * j)) :=
              lt_min (by linarith) (lt_min (by linarith [hwide.1])
                (by linarith [hwide.2]))
            linarith),
          if_pos hcond] at hl
        rw [show ((32 : ℚ) * 2 ^ (k + 1)) / 2 = 32 * 2 ^ k by
            rw [pow_succ]; ring] at hl
        rw [show (32 : ℚ) * 2 ^ (k + 1) * i = 32 * 2 ^ k * ((2 * i : ℕ) : ℚ) by
            push_cast; rw [pow_succ]; ring] at hl
        rw [show (32 : ℚ) * 2 ^ k * ((2 * i : ℕ) : ℚ) + 32 * 2 ^ k =
            32 * 2 ^ k * ((2 * i + 1 : ℕ) : ℚ) by push_cast; ring] at hl
        rw [show (32 : ℚ) * 2 ^ (k + 1) * j = 32 * 2 ^ k * ((2 * j : ℕ) : ℚ) by
            push_cast; rw [pow_succ]; ring] at hl
        rw [show (32 : ℚ) * 2 ^ k * ((2 * j : ℕ) : ℚ) + 32 * 2 ^ k =
            32 * 2 ^ k * ((2 * j + 1 : ℕ) : ℚ) by push_cast; ring] at hl
        rcases List.mem_append.mp hl with hABC | hD
        · rcases List.mem_append.mp hABC with hAB | hC
          · rcases List.mem_append.mp hAB with hA | hB
            · exact ihk (by omega) fuel (2 * i) (2 * j) (by omega) l hA
            · exact ihk (by omega) fuel (2 * i + 1) (2 * j) (by omega) l hB
          · exact ihk (by omega) fuel (2 * i) (2 * j + 1) (by omega) l hC
        · exact ihk (by omega) fuel (2 * i + 1) (2 * j + 1) (by omega) l hD

/-- Coverage: every point of the raster below a grid-aligned node of the
max-size-rule splitter on the 512×384 configuration is covered by some
leaf of that subtree. -/

theorem maxSplit512_cover :
    ∀ (k : ℕ), k ≤ 4 → ∀ (fuel i j : ℕ), k + 1 ≤ fuel → ∀ px py : ℚ,
      (32 : ℚ) * 2 ^ k * i ≤ px → px < min ((32 : ℚ) * 2 ^ k * ((i : ℚ) + 1)) 512 →
      (32 : ℚ) * 2 ^ k * j ≤ py → py < min ((32 : ℚ) * 2 ^ k * ((j : ℚ) + 1)) 384 →
      ∃ l ∈ maxSplitNode 512 384 (96/5) (192/5) fuel
          ((32 : ℚ) * 2 ^ k * i) ((32 : ℚ) * 2 ^ k * j) ((32 : ℚ) * 2 ^ k),
        ptInLeaf px py l := by
  intro k
  induction k with
  | zero =>
    intro _ fuel i j hf px py hpx1 hpx2 hpy1 hpy2
    have hpx512 : px < 512 := lt_of_lt_of_le hpx2 (min_le_right _ _)
    have hpy384 : py < 384 := lt_of_lt_of_le hpy2 (min_le_right _ _)
    have hpxup : px < (32 : ℚ) * 2 ^ 0 * ((i : ℚ) + 1) :=
      lt_of_lt_of_le hpx2 (min_le_left _ _)
    have hpyup : py < (32 : ℚ) * 2 ^ 0 * ((j : ℚ) + 1) :=
      lt_of_lt_of_le hpy2 (min_le_left _ _)
    cases fuel with
    | zero => omega
    | succ fuel =>
      unfold maxSplitNode
      simp only [Nat.cast_ofNat]
      rw [if_neg (by push_neg; exact ⟨by linarith, by linarith⟩)]
      have hi16 : i < 16 := by
        by_contra hcon
        push_neg at hcon
        have h16 : (16 : ℚ) ≤ (i : ℚ) := by exact_mod_cast hcon
        nlinarith [hpx1, hpx512]
      have hj12 : j < 12 := by
        by_contra hcon
        push_neg at hcon
        have h12 : (12 : ℚ) ≤ (j : ℚ) := by exact_mod_cast hcon
        nlinarith [hpy1, hpy384]
      have hiq : (i : ℚ) ≤ 15 := by exact_mod_cast Nat.lt_succ_iff.mp hi16
      have hjq : (j : ℚ) ≤ 11 := by exact_mod_cast Nat.lt_succ_iff.mp hj12
      rw [show min ((32 : ℚ) * 2 ^ 0)
          (min ((512 : ℚ) - (32 : ℚ) * 2 ^ 0 * i)
            ((384 : ℚ) - (32 : ℚ) * 2 ^ 0 * j)) = 32 by
        rw [min_eq_left]
        · norm_num
        · refine le_min (by norm_num; linarith) (by norm_num; linarith)]
      rw [if_neg (by norm_num), if_neg (by norm_num)]
      refine ⟨_, List.mem_singleton_self _, ?_⟩
      refine ⟨hpx1, ?_, hpy1, ?_⟩
      · simp only []
        norm_num at hpxup ⊢
        linarith
      · simp only []
        norm_num at hpyup ⊢
        linarith
  | succ k ihk =>
    intro hk fuel i j hf px py hpx1 hpx2 hpy1 hpy2
    have hpx512 : px < 512 := lt_of_lt_of_le hpx2 (min_le_right _ _)
    have hpy384 : py < 384 := lt_of_lt_of_le hpy2 (min_le_right _ _)
    have hpxup : px < (32 : ℚ) * 2 ^ (k + 1) * ((i : ℚ) + 1) :=
      lt_of_lt_of_le hpx2 (min_le_left _ _)
    have hpyup : py < (32 : ℚ) * 2 ^ (k + 1) * ((j : ℚ) + 1) :=
      lt_of_lt_of_le hpy2 (min_le_left _ _)
    have hx512 : (32 : ℚ) * 2 ^ (k + 1) * i < 512 := lt_of_le_of_lt hpx1 hpx512
    have hy384 : (32 : ℚ) * 2 ^ (k + 1) * j < 384 := lt_of_le_of_lt hpy1 hpy384
    cases fuel with
    | zero => omega
    | succ fuel =>
      unfold maxSplitNode
      simp only [Nat.cast_ofNat]
      rw [if_neg (by push_neg; exact ⟨by linarith, by linarith⟩)]
      have hkk3 : k ≤ 3 := by omega
      have hwide : (64 : ℚ) ≤ (512 : ℚ) - (32 : ℚ) * 2 ^ (k + 1) * i ∧
          (64 : ℚ) ≤ (384 : ℚ) - (32 : ℚ) * 2 ^ (k + 1) * j := by
        interval_cases k
        · constructor
          · have hin : i < 8 := by
              by_contra hcon
              push_neg at hcon
              have hc : (8 : ℚ) ≤ i := by exact_mod_cast hcon
              norm_num at hx512
              linarith
            have hiq : (i : ℚ) ≤ 7 := by exact_mod_cast Nat.lt_succ_iff.mp hin
            norm_num
            linarith
          · have hjn : j < 6 := by
              by_contra hcon
              push_neg at hcon
              have hc : (6 : ℚ) ≤ j := by exact_mod_cast hcon
              norm_num at hy384
              linarith
            have hjq : (j : ℚ) ≤ 5 := by exact_mod_cast Nat.lt_succ_iff.mp hjn
            norm_num
            linarith
        · constructor
          · have hin : i < 4 := by
              by_contra hcon
              push_neg at hcon
              have hc : (4 : ℚ) ≤ i := by exact_mod_cast hcon
              norm_num at hx512
              linarith
            have hiq : (i : ℚ) ≤ 3 := by exact_mod_cast Nat.lt_succ_iff.mp hin
            norm_num
            linarith
          · have hjn : j < 3 := by
              by_contra hcon
              push_neg at hcon
              have hc : (3 : ℚ) ≤ j := by exact_mod_cast hcon
              norm_num at hy384
              linarith
            have hjq : (j : ℚ) ≤ 2 := by exact_mod_cast Nat.lt_succ_iff.mp hjn
            norm_num
            linarith
        · constructor
          · have hin : i < 2 := by
              by_contra hcon
              push_neg at hcon
              have hc : (2 : ℚ) ≤ i := by exact_mod_cast hcon
              norm_num at hx512
              linarith
            have hiq : (i : ℚ) ≤ 1 := by exact_mod_cast Nat.lt_succ_iff.mp hin
            norm_num
            linarith
          · have hjn : j < 2 := by
              by_contra hcon
              push_neg at hcon
              have hc : (2 : ℚ) ≤ j := by exact_mod_cast hcon
              norm_num at hy384
              linarith
            have hjq : (j : ℚ) ≤ 1 := by exact_mod_cast Nat.lt_succ_iff.mp hjn
            norm_num
            linarith
        · constructor
          · have hin : i < 1 := by
              by_contra hcon
              push_neg at hcon
              have hc : (1 : ℚ) ≤ i := by exact_mod_cast hcon
              norm_num at hx512
              linarith
            have hiq : (i : ℚ) ≤ 0 := by exact_mod_cast Nat.lt_succ_iff.mp hin
            norm_num
            linarith
          · have hjn : j < 1 := by
              by_contra hcon
              push_neg at hcon
              have hc : (1 : ℚ) ≤ j := by exact_mod_cast hcon
              norm_num at hy384
              linarith
            have hjq : (j : ℚ) ≤ 0 := by exact_mod_cast Nat.lt_succ_iff.mp hjn
            norm_num
            linarith
      have hs64 : (64 : ℚ) ≤ 32 * 2 ^ (k + 1) := by
        have h2k : (1 : ℚ) ≤ 2 ^ k := one_le_pow₀ (by norm_num)
        rw [pow_succ]
        nlinarith
      have hcond : ((96 : ℚ)/5 < min ((32 : ℚ) * 2 ^ (k + 1))
            (min ((512 : ℚ) - (32 : ℚ) * 2 ^ (k + 1) * i)
              ((384 : ℚ) - (32 : ℚ) * 2 ^ (k + 1) * j)) ∧
          (192 : ℚ)/5 < min ((32 : ℚ) * 2 ^ (k + 1))
            (min ((512 : ℚ) - (32 : ℚ) * 2 ^ (k + 1) * i)
              ((384 : ℚ) - (32 : ℚ) * 2 ^ (k + 1) * j))) := by
        constructor <;>
          exact lt_min (by linarith)
            (lt_min (by linarith [hwide.1]) (by linarith [hwide.2]))
      rw [if_neg (by
          intro hle
          have h0 : (0 : ℚ) < min ((32 : ℚ) * 2 ^ (k + 1))
              (min ((512 : ℚ) - (32 : ℚ) * 2 ^ (k + 1) * i)
                ((384 : ℚ) - (32 : ℚ) * 2 ^ (k + 1) * j)) :=
            lt_min (by linarith) (lt_min (by linarith [hwide.1])
              (by linarith [hwide.2]))
          linarith),
        if_pos hcond]
      rw [show ((32 : ℚ) * 2 ^ (k + 1)) / 2 = 32 * 2 ^ k by
          rw [pow_succ]; ring]
      have e1 : (32 : ℚ) * 2 ^ k * ((2 * i : ℕ) : ℚ) = 32 * 2 ^ (k + 1) * i := by
        push_cast; rw [pow_succ]; ring
      have e2 : (32 : ℚ) * 2 ^ k * (((2 * i : ℕ) : ℚ) + 1) =
          32 * 2 ^ (k + 1) * i + 32 * 2 ^ k := by
        push_cast; rw [pow_succ]; ring
      have e3 : (32 : ℚ) * 2 ^ k * ((2 * i + 1 : ℕ) : ℚ) =
          32 * 2 ^ (k + 1) * i + 32 * 2 ^ k := by
        push_cast; rw [pow_succ]; ring
      have e4 : (32 : ℚ) * 2 ^ k * (((2 * i + 1 : ℕ) : ℚ) + 1) =
          32 * 2 ^ (k + 1) * ((i : ℚ) + 1) := by
        push_cast; rw [pow_succ]; ring
      have f1 : (32 : ℚ) * 2 ^ k * ((2 * j : ℕ) : ℚ) = 32 * 2 ^ (k + 1) * j := by
        push_cast; rw [pow_succ]; ring
      have f2 : (32 : ℚ) * 2 ^ k * (((2 * j : ℕ) : ℚ) + 1) =
          32 * 2 ^ (k + 1) * j + 32 * 2 ^ k := by
        push_cast; rw [pow_succ]; ring
      have f3 : (32 : ℚ) * 2 ^ k * ((2 * j + 1 : ℕ) : ℚ) =
          32 * 2 ^ (k + 1) * j + 32 * 2 ^ k := by
        push_cast; rw [pow_succ]; ring
      have f4 : (32 : ℚ) * 2 ^ k * (((2 * j + 1 : ℕ) : ℚ) + 1) =
          32 * 2 ^ (k + 1) * ((j : ℚ) + 1) := by
        push_cast; rw [pow_succ]; ring
      by_cases hmx : px < 32 * 2 ^ (k + 1) * i + 32 * 2 ^ k <;>
        by_cases hmy : py < 32 * 2 ^ (k + 1) * j + 32 * 2 ^ k
      · obtain ⟨l, hmem, hpt⟩ := ihk (by omega) fuel (2 * i) (2 * j) (by omega)
          px py (by rw [e1]; exact hpx1) (lt_min (by rw [e2]; exact hmx) hpx512)
          (by rw [f1]; exact hpy1) (lt_min (by rw [f2]; exact hmy) hpy384)
        rw [e1, f1] at hmem
        exact ⟨l, List.mem_append_left _ (List.mem_append_left _
          (List.mem_append_left _ hmem)), hpt⟩
      · push_neg at hmy
        obtain ⟨l, hmem, hpt⟩ := ihk (by omega) fuel (2 * i) (2 * j + 1) (by omega)
          px py (by rw [e1]; exact hpx1) (lt_min (by rw [e2]; exact hmx) hpx512)
          (by rw [f3]; exact hmy) (lt_min (by rw [f4]; exact hpyup) hpy384)
        rw [e1, f3] at hmem
        exact ⟨l, List.mem_append_left _ (List.mem_append_right _ hmem), hpt⟩
      · push_neg at hmx
        obtain ⟨l, hmem, hpt⟩ := ihk (by omega) fuel (2 * i + 1) (2 * j) (by omega)
          px py (by rw [e3]; exact hmx) (lt_min (by rw [e4]; exact hpxup) hpx512)
          (by rw [f1]; exact hpy1) (lt_min (by rw [f2]; exact hmy) hpy384)
        rw [e3, f1] at hmem
        exact ⟨l, List.mem_append_left _ (List.mem_append_left _
          (List.mem_append_right _ hmem)), hpt⟩
      · push_neg at hmx hmy
        obtain ⟨l, hmem, hpt⟩ := ihk (by omega) fuel (2 * i + 1) (2 * j + 1) (by omega)
          px py (by rw [e3]; exact hmx) (lt_min (by rw [e4]; exact hpxup) hpx512)
          (by rw [f3]; exact hmy) (lt_min (by rw [f4]; exact hpyup) hpy384)
        rw [e3, f3] at hmem
        exact ⟨l, List.mem_append_right _ hmem, hpt⟩

theorem maxSplitLeaves_512_384 :
    maxSplitLeaves 512 384 = maxSplitNode 512 384 (96/5) (192/5) 39 0 0 512 := by
  unfold maxSplitLeaves
  rw [show max 512 384 = 512 by norm_num, clog2_512,
    show min 512 384 = 384 by norm_num]
  norm_num [MIN_TILES_PER_DIMENSION, MAX_TILES_PER_DIMENSION]

/-! ### Claim C3 -/

/-- C3 (amended).  On the uniform-gray 512×384 raster the partitioner's
derived bounds are `minTileSize = 19.2` and `maxTileSize = 38.4` (not the
25.6/51.2 of the scenario, which used the larger raster side), and:
(1) the built tree coincides with the pure max-size-rule splitter — no
split is ever caused by variance, which is identically `0`; (2) every
leaf has the single uniform size `32` — the largest power-of-two fraction
of the 512 root that does not exceed the max-leaf bound (under either
reading of the bound, 38.4 or 51.2) — rather than a leaf at the max-leaf
size itself; (3) the leaves cover the full raster. -/

theorem C3_uniform_gray_scenario_amended :
    buildQuadtreeLeaves (constImg 512 384 128) 512 384 = maxSplitLeaves 512 384 ∧
    (∀ l ∈ buildQuadtreeLeaves (constImg 512 384 128) 512 384, l.size = 32) ∧
    (∀ px py : ℚ, 0 ≤ px → px < 512 → 0 ≤ py → py < 384 →
      ∃ l ∈ buildQuadtreeLeaves (constImg 512 384 128) 512 384,
        ptInLeaf px py l) := by
  have hbridge := buildQuadtreeLeaves_const_eq_maxSplit 512 384
  refine ⟨hbridge, ?_, ?_⟩
  · intro l hl
    rw [hbridge, maxSplitLeaves_512_384] at hl
    have hsz := maxSplit512_leaf_sizes 4 (by norm_num) 39 0 0 (by norm_num) l
    rw [show ((32 : ℚ) * 2 ^ 4 * ((0 : ℕ) : ℚ)) = 0 by norm_num,
      show ((32 : ℚ) * 2 ^ 4) = 512 by norm_num] at hsz
    exact hsz hl
  · intro px py hpx0 hpx hpy0 hpy
    rw [hbridge, maxSplitLeaves_512_384]
    have hcov := maxSplit512_cover 4 (by norm_num) 39 0 0 (by norm_num) px py
      (by norm_num; exact hpx0)
      (by rw [show min ((32 : ℚ) * 2 ^ 4 * (((0 : ℕ) : ℚ) + 1)) 512 = 512 by
            norm_num]
          exact hpx)
      (by norm_num; exact hpy0)
      (by rw [show min ((32 : ℚ) * 2 ^ 4 * (((0 : ℕ) : ℚ) + 1)) 384 = 384 by
            norm_num]
          exact hpy)
    rw [show ((32 : ℚ) * 2 ^ 4 * ((0 : ℕ) : ℚ)) = 0 by norm_num,
      show ((32 : ℚ) * 2 ^ 4) = 512 by norm_num] at hcov
    exact hcov

/-- C3 counterexample.  The uniform-gray 512×384 partition contains a leaf
whose size differs from the scenario's stated max-leaf size `51.2` and
from the code's derived max-leaf size `38.4`: the leaves come out at `32`,
never "exactly at max-leaf size". -/

theorem C3_counterexample :
    ∃ l ∈ buildQuadtreeLeaves (constImg 512 384 128) 512 384,
      l.size ≠ 256/5 ∧ l.size ≠ 192/5 := by
  have hbridge := buildQuadtreeLeaves_const_eq_maxSplit 512 384
  have hcov := maxSplit512_cover 4 (by norm_num) 39 0 0 (by norm_num) 0 0
    (by norm_num) (by norm_num) (by norm_num) (by norm_num)
  rw [show ((32 : ℚ) * 2 ^ 4 * ((0 : ℕ) : ℚ)) = 0 by norm_num,
    show ((32 : ℚ) * 2 ^ 4) = 512 by norm_num] at hcov
  obtain ⟨l, hmem, _⟩ := hcov
  refine ⟨l, ?_, ?_⟩
  · rw [hbridge, maxSplitLeaves_512_384]
    exact hmem
  · have hsz := maxSplit512_leaf_sizes 4 (by norm_num) 39 0 0 (by norm_num) l
    rw [show ((32 : ℚ) * 2 ^ 4 * ((0 : ℕ) : ℚ)) = 0 by norm_num,
      show ((32 : ℚ) * 2 ^ 4) = 512 by norm_num] at hsz
    rw [hsz hmem]
    norm_num

/-- C3 witness: the amended theorem's coverage clause at the raster
origin. -/

theorem C3_witness :
    ∃ l ∈ buildQuadtreeLeaves (constImg 512 384 128) 512 384,
      ptInLeaf 0 0 l :=
  C3_uniform_gray_scenario_amended.2.2 0 0 (by norm_num) (by norm_num)
    (by norm_num) (by norm_num)

/-! ### Claim C6 -/

/-- C6 (amended).  For every raster and raster size, the colored quadtree
leaves are pairwise disjoint and lie inside the raster with positive size.
(Full coverage — "their union equals the full raster area" — fails in
general: see the counterexample, where asymmetric clipping at the raster
edge loses area.) -/

theorem C6_partition_amended (imageData : ImageData) (w h : ℕ) :
    List.Pairwise leafDisjoint (buildQuadtreeLeaves imageData w h) ∧
    ∀ l ∈ buildQuadtreeLeaves imageData w h,
      0 ≤ l.x ∧ 0 ≤ l.y ∧ 0 < l.size ∧
      l.x + l.size ≤ w ∧ l.y + l.size ≤ h := by
  have hpos : (0 : ℚ) < 2 ^ Nat.clog 2 (max w h) := by positivity
  constructor
  · exact buildNode_pairwise_disjoint imageData w h _ _ _ 0 0 _ hpos
  · intro l hl
    have hc := buildNode_contained imageData w h
      (((min w h : ℕ) : ℚ) / MAX_TILES_PER_DIMENSION)
      (((min w h : ℕ) : ℚ) / MIN_TILES_PER_DIMENSION)
      (Nat.clog 2 (max w h) + 30) 0 0 (2 ^ Nat.clog 2 (max w h)) hpos l hl
    obtain ⟨h1, _, h3, _, h5, _, _, h8, h9⟩ := hc
    exact ⟨h1, h3, h5, h8, h9⟩

/-- The uniform-gray 17×16 partition decomposes into the subtree over
`[0,16)²` plus one clipped 1×1 leaf at `(16, 0)` (the two lower root
quadrants start outside the raster and produce nothing): the root
quadrant at `(16, 0)` of size 16 is clipped to width `16 − 17 = 1` and
immediately becomes a leaf of size 1, abandoning the rest of its
column. -/

theorem leaves17_eq :
    buildQuadtreeLeaves (constImg 17 16 128) 17 16 =
      buildNode (constImg 17 16 128) 17 16 (4/5) (8/5) 34 0 0 16 ++
        [⟨16, 0, 1, ⟨128, 128, 128⟩⟩] ++ [] ++ [] := by
  unfold buildQuadtreeLeaves
  rw [show max 17 16 = 17 by norm_num, clog2_17,
    show min 17 16 = 16 by norm_num]
  rw [show ((16 : ℕ) : ℚ) / MAX_TILES_PER_DIMENSION = 4/5 by
      norm_num [MAX_TILES_PER_DIMENSION],
    show ((16 : ℕ) : ℚ) / MIN_TILES_PER_DIMENSION = 8/5 by
      norm_num [MIN_TILES_PER_DIMENSION]]
  rw [show (5 + 30 : ℕ) = 34 + 1 by norm_num]
  rw [buildNode.eq_2]
  simp only [Nat.cast_ofNat]
  rw [if_neg (by push_neg; norm_num)]
  rw [show min ((2 : ℚ) ^ 5) (min ((17 : ℚ) - 0) ((16 : ℚ) - 0)) = 16 by
    norm_num]
  rw [if_neg (by norm_num)]
  rw [if_pos ⟨by norm_num, Or.inr (by norm_num)⟩]
  rw [show ((2 : ℚ) ^ 5) / 2 = 16 by norm_num]
  rw [show (0 : ℚ) + 16 = 16 by norm_num]
  have hB : buildNode (constImg 17 16 128) 17 16 (4/5) (8/5) 34 16 0 16 =
      [⟨16, 0, 1, ⟨128, 128, 128⟩⟩] := by
    rw [show (34 : ℕ) = 33 + 1 by norm_num, buildNode.eq_2]
    simp only [Nat.cast_ofNat]
    rw [if_neg (by push_neg; norm_num)]
    rw [show min (16 : ℚ) (min ((17 : ℚ) - 16) ((16 : ℚ) - 0)) = 1 by
      norm_num]
    rw [if_neg (by norm_num)]
    rw [if_neg (by
      rw [calculateVariance_const]
      norm_num [VARIANCE_THRESHOLD])]
    rw [getAreaColor_const]
  have hC : buildNode (constImg 17 16 128) 17 16 (4/5) (8/5) 34 0 16 16 = [] := by
    rw [show (34 : ℕ) = 33 + 1 by norm_num, buildNode.eq_2]
    simp only [Nat.cast_ofNat]
    rw [if_pos (Or.inr (by norm_num : (16 : ℚ) ≤ 16))]
  have hD : buildNode (constImg 17 16 128) 17 16 (4/5) (8/5) 34 16 16 16 = [] := by
    rw [show (34 : ℕ) = 33 + 1 by norm_num, buildNode.eq_2]
    simp only [Nat.cast_ofNat]
    rw [if_pos (Or.inr (by norm_num : (16 : ℚ) ≤ 16))]
  rw [hB, hC, hD]

/-- C6 counterexample.  On a uniform-gray 17×16 raster the point
`(16, 8)` lies inside the raster but inside no colored leaf: the quadrant
at `(16, 0)` is clipped to a 1×1 leaf covering only `[16,17)×[0,1)`, so
`[16,17)×[1,16)` is covered by no leaf — refuting "their union equals the
full raster area" for general rasters. -/

theorem C6_counterexample :
    ((0 : ℚ) ≤ 16 ∧ (16 : ℚ) < 17 ∧ (0 : ℚ) ≤ 8 ∧ (8 : ℚ) < 16) ∧
    ∀ l ∈ buildQuadtreeLeaves (constImg 17 16 128) 17 16,
      ¬ ptInLeaf 16 8 l := by
  refine ⟨by norm_num, ?_⟩
  intro l hl hpt
  rw [leaves17_eq] at hl
  simp only [List.append_nil] at hl
  rcases List.mem_append.mp hl with hA | hB
  · have hc := buildNode_contained (constImg 17 16 128) 17 16 (4/5) (8/5)
      34 0 0 16 (by norm_num) l hA
    obtain ⟨_, h2, _, _, _, _, _, _, _⟩ := hc
    obtain ⟨hp1, hp2, _, _⟩ := hpt
    have : (16 : ℚ) < 0 + 16 := lt_of_lt_of_le hp2 h2
    norm_num at this
  · simp only [List.mem_singleton] at hB
    subst hB
    obtain ⟨_, _, _, hp4⟩ := hpt
    norm_num at hp4

/-- C6 witness: the amended theorem applied to the 17×16 uniform-gray
raster at its clipped 1×1 leaf. -/

theorem C6_witness :
    List.Pairwise leafDisjoint
      (buildQuadtreeLeaves (constImg 17 16 128) 17 16) ∧
    (0 : ℚ) ≤ (16 : ℚ) ∧ (0 : ℚ) ≤ (0 : ℚ) ∧ (0 : ℚ) < 1 ∧
    (16 : ℚ) + 1 ≤ 17 ∧ (0 : ℚ) + 1 ≤ 16 := by
  have hmem : (⟨16, 0, 1, ⟨128, 128, 128⟩⟩ : QLeaf) ∈
      buildQuadtreeLeaves (constImg 17 16 128) 17 16 := by
    rw [leaves17_eq]
    simp only [List.append_nil]
    exact List.mem_append_right _ (List.mem_singleton_self _)
  have h := (C6_partition_amended (constImg 17 16 128) 17 16).2
    ⟨16, 0, 1, ⟨128, 128, 128⟩⟩ hmem
  have h' : (0 : ℚ) ≤ 16 ∧ (0 : ℚ) ≤ 0 ∧ (0 : ℚ) < 1 ∧
      (16 : ℚ) + 1 ≤ ((17 : ℕ) : ℚ) ∧ (0 : ℚ) + 1 ≤ ((16 : ℕ) : ℚ) := h
  exact ⟨(C6_partition_amended (constImg 17 16 128) 17 16).1,
    h'.1, h'.2.1, h'.2.2.1, by exact_mod_cast h'.2.2.2.1,
    by exact_mod_cast h'.2.2.2.2⟩

/-! ### Claim C7 -/

/-- C7.  The export replays the resolved tile list: (1) with the same
asset-availability predicate, the export's draw list is exactly the
on-screen draw list scaled uniformly by the factor — same tiles, same
assignments, same opacities, positions and sizes multiplied by the scale;
(2) every tile whose image loads and whose stored opacity is non-zero is
drawn at `(x·s, y·s)` with size `(width·s, height·s)` at exactly its stored
opacity. -/

theorem C7_highres_replays_placed_list :
    (∀ (tiles : List Tile) (loads : ℕ → Bool) (scaleFactor : ℚ),
      downloadHighResDraws tiles loads scaleFactor =
        (screenTileDraws tiles loads).map (scaleDraw scaleFactor)) ∧
    (∀ (tiles : List Tile) (loads : ℕ → Bool) (scaleFactor : ℚ) (t : Tile),
      t ∈ tiles → loads t.imageIndex = true → t.opacity ≠ 0 →
      (⟨t.imageIndex, t.x * scaleFactor, t.y * scaleFactor,
        t.width * scaleFactor, t.height * scaleFactor, t.opacity⟩ : DrawCmd) ∈
        downloadHighResDraws tiles loads scaleFactor) := by
  constructor
  · intro tiles loads scaleFactor
    induction tiles with
    | nil => rfl
    | cons t rest ih =>
      unfold downloadHighResDraws screenTileDraws at ih ⊢
      simp only [List.filterMap_cons]
      by_cases hl : loads t.imageIndex = true
      · rw [if_pos hl, if_pos hl]
        simp only [List.map_cons]
        rw [ih]
        rfl
      · rw [if_neg hl, if_neg hl]
        exact ih
  · intro tiles loads scaleFactor t ht hl hop
    unfold downloadHighResDraws
    rw [List.mem_filterMap]
    refine ⟨t, ht, ?_⟩
    rw [if_pos hl]
    unfold jsOrDefault
    rw [if_neg hop]

/-- C7 witness: both conjuncts at a concrete one-tile list and scale 4. -/

theorem C7_witness :
    downloadHighResDraws [⟨1, 2, 3, 4, 7, 1/2⟩] (fun _ => true) 4 =
      (screenTileDraws [⟨1, 2, 3, 4, 7, 1/2⟩] (fun _ => true)).map (scaleDraw 4) ∧
    (⟨7, 1 * 4, 2 * 4, 3 * 4, 4 * 4, 1/2⟩ : DrawCmd) ∈
      downloadHighResDraws [⟨1, 2, 3, 4, 7, 1/2⟩] (fun _ => true) 4 :=
  ⟨C7_highres_replays_placed_list.1 [⟨1, 2, 3, 4, 7, 1/2⟩] (fun _ => true) 4,
   C7_highres_replays_placed_list.2 [⟨1, 2, 3, 4, 7, 1/2⟩] (fun _ => true) 4
     ⟨1, 2, 3, 4, 7, 1/2⟩ (List.mem_singleton_self _) rfl (by norm_num)⟩

/-! ### Claim C10 -/

/-- C10.  (1) The render list keeps exactly the tiles whose image URL
loaded, unchanged — unresolved tiles are dropped, not rendered empty;
(2) each emitted element carries precisely the URL loaded for its own tile
id; (3) the tile loader maps an id to a URL only when that id's own
`/tiles/<filename>` asset resolved in the cache — it never substitutes a
fallback image for an unavailable id. -/

theorem C10_unresolved_tiles_dropped :
    (∀ (tiles : List Tile) (tileImageUrls : ℕ → Option String),
      (tilesToRender tiles tileImageUrls).map Prod.fst =
        tiles.filter (fun t => (tileImageUrls t.imageIndex).isSome)) ∧
    (∀ (tiles : List Tile) (tileImageUrls : ℕ → Option String) (t : Tile)
        (url : String), (t, url) ∈ tilesToRender tiles tileImageUrls →
      tileImageUrls t.imageIndex = some url) ∧
    (∀ (tiles : List Tile) (availableTileIndices : List ℕ)
        (images : List String) (cacheLoad : String → Option String)
        (imageIndex : ℕ) (url : String),
      loadTilesUrls tiles availableTileIndices images cacheLoad imageIndex =
        some url →
      availableTileIndices.contains imageIndex = true ∧
      ∃ filename, images.get? imageIndex = some filename ∧ filename ≠ "" ∧
        cacheLoad ("/tiles/" ++ filename) = some url) := by
  refine ⟨?_, ?_, ?_⟩
  · intro tiles tileImageUrls
    induction tiles with
    | nil => rfl
    | cons t rest ih =>
      unfold tilesToRender at ih ⊢
      simp only [List.filterMap_cons, List.filter_cons]
      cases hu : tileImageUrls t.imageIndex with
      | none =>
        simp only [Option.map_none', Option.isSome_none, Bool.false_eq_true,
          if_false]
        exact ih
      | some url =>
        simp only [Option.map_some', Option.isSome_some, if_true,
          List.map_cons]
        rw [ih]
  · intro tiles tileImageUrls t url hmem
    unfold tilesToRender at hmem
    rcases List.mem_filterMap.mp hmem with ⟨t', ht', heq⟩
    cases hu : tileImageUrls t'.imageIndex with
    | none => rw [hu] at heq; exact absurd heq (by simp)
    | some url' =>
      rw [hu] at heq
      simp only [Option.map_some', Option.some_inj, Prod.mk.injEq] at heq
      obtain ⟨rfl, rfl⟩ := heq
      exact hu
  · intro tiles availableTileIndices images cacheLoad imageIndex url hmap
    unfold loadTilesUrls at hmap
    split at hmap
    · next hc =>
      refine ⟨hc.2, ?_⟩
      split at hmap
      · exact absurd hmap (by simp)
      · next filename hget =>
        split at hmap
        · exact absurd hmap (by simp)
        · next hemp => exact ⟨filename, hget, hemp, hmap⟩
    · exact absurd hmap (by simp)

/-- C10 witness: all three conjuncts at concrete inputs. -/

theorem C10_witness :
    (tilesToRender [⟨0, 0, 1, 1, 3, 1⟩] (fun _ => some "u")).map Prod.fst =
      ([⟨0, 0, 1, 1, 3, 1⟩] : List Tile).filter
        (fun t => ((fun _ : ℕ => some "u") t.imageIndex).isSome) ∧
    (fun _ : ℕ => some "u") (⟨0, 0, 1, 1, 3, 1⟩ : Tile).imageIndex = some "u" ∧
    (([2, 3] : List ℕ).contains 3 = true ∧
      ∃ filename, (["x.jpg", "y.jpg", "z.jpg", "w.jpg"] :
          List String).get? 3 = some filename ∧ filename ≠ "" ∧
        (fun s : String => some s) ("/tiles/" ++ filename) =
          some ("/tiles/" ++ "w.jpg")) := by
  refine ⟨C10_unresolved_tiles_dropped.1 [⟨0, 0, 1, 1, 3, 1⟩] (fun _ => some "u"),
    ?_, ?_⟩
  · exact C10_unresolved_tiles_dropped.2.1 [⟨0, 0, 1, 1, 3, 1⟩]
      (fun _ => some "u") ⟨0, 0, 1, 1, 3, 1⟩ "u" (by
        unfold tilesToRender
        simp)
  · exact C10_unresolved_tiles_dropped.2.2 [⟨0, 0, 1, 1, 3, 1⟩] [2, 3]
      ["x.jpg", "y.jpg", "z.jpg", "w.jpg"] (fun s => some s) 3
      ("/tiles/" ++ "w.jpg") (by decide)

theorem Hex.buildCandidates_sound (targetColor : Color) (usageCount : ℕ → ℕ)
    (excludedIndices : Finset ℕ) (diversityBonus : ℚ) (avail : List ℕ)
    (maxUsage : ℕ) :
    ∀ (i : ℕ) (cols : List Color) (c : Candidate),
      c ∈ Hex.buildCandidates targetColor usageCount excludedIndices
        diversityBonus (some avail) maxUsage i cols →
      c.index ∉ excludedIndices ∧ c.index ∈ avail ∧ i ≤ c.index ∧
        c.index < i + cols.length ∧ c.usage = usageCount c.index ∧
        usageCount c.index < maxUsage := by
  intro i cols
  induction cols generalizing i with
  | nil => intro c hc; simp [Hex.buildCandidates] at hc
  | cons color rest ih =>
    intro c hc
    unfold Hex.buildCandidates at hc
    rcases List.mem_append.mp hc with hhead | htail
    · by_cases he : i ∈ excludedIndices
      · rw [if_pos he] at hhead
        exact absurd hhead (List.not_mem_nil c)
      · rw [if_neg he] at hhead
        by_cases ha : allowPass (some avail) i = false
        · rw [if_pos ha] at hhead
          exact absurd hhead (List.not_mem_nil c)
        · rw [if_neg ha] at hhead
          by_cases hu : usageCount i ≥ maxUsage
          · rw [if_pos hu] at hhead
            exact absurd hhead (List.not_mem_nil c)
          · rw [if_neg hu] at hhead
            simp only [List.mem_singleton] at hhead
            subst hhead
            simp only [allowPass] at ha
            refine ⟨he, ?_, le_refl i, ?_, rfl, lt_of_not_ge hu⟩
            · have := eq_true_of_ne_false ha
              exact (list_contains_iff_mem avail i).mp this
            · simp only [List.length_cons]
              omega
    · rcases ih (i + 1) c htail with ⟨h1, h2, h3, h4, h5, h6⟩
      refine ⟨h1, h2, by omega, ?_, h5, h6⟩
      simp only [List.length_cons]
      omega

theorem Hex.buildCandidates_ne_nil (targetColor : Color) (usageCount : ℕ → ℕ)
    (excludedIndices : Finset ℕ) (diversityBonus : ℚ) (avail : List ℕ)
    (maxUsage : ℕ) :
    ∀ (i : ℕ) (cols : List Color) (k : ℕ), k < cols.length →
      (i + k) ∉ excludedIndices → (i + k) ∈ avail →
      usageCount (i + k) < maxUsage →
      Hex.buildCandidates targetColor usageCount excludedIndices
        diversityBonus (some avail) maxUsage i cols ≠ [] := by
  intro i cols
  induction cols generalizing i with
  | nil => intro k hk; simp at hk
  | cons color rest ih =>
    intro k hk he ha hu
    unfold Hex.buildCandidates
    cases k with
    | zero =>
      simp only [Nat.add_zero] at he ha hu
      rw [if_neg he]
      have hcont : allowPass (some avail) i ≠ false := by
        simp only [allowPass]
        rw [(list_contains_iff_mem avail i).mpr ha]
        simp
      rw [if_neg hcont, if_neg (not_le.mpr hu)]
      simp
    | succ k' =>
      intro hnil
      have hk' : k' < rest.length := by
        simp only [List.length_cons] at hk
        omega
      have hrw : i + 1 + k' = i + (k' + 1) := by omega
      have htail := ih (i + 1) k' hk' (hrw ▸ he) (hrw ▸ ha) (hrw ▸ hu)
      exact htail (List.append_eq_nil.mp hnil).2

/-- Ledger counting: the pass increments exactly the returned index, once
per region, so the final ledger entry of every id equals its prior entry
plus the number of regions the pass assigned to it. -/

theorem Hex.generatePass_count (photoColors : List Color)
    (excludedIndices : Finset ℕ) (diversityBonus : ℚ)
    (availableTileIndices : Option (List ℕ)) (maxUsage : ℕ) :
    ∀ (regionColors : List Color) (usageCount : ℕ → ℕ) (i : ℕ),
      (Hex.generatePass photoColors excludedIndices diversityBonus
        availableTileIndices maxUsage regionColors usageCount).2 i =
      usageCount i + (Hex.generatePass photoColors excludedIndices
        diversityBonus availableTileIndices maxUsage regionColors
        usageCount).1.count i := by
  intro regionColors
  induction regionColors with
  | nil => intro usageCount i; simp [Hex.generatePass]
  | cons c rest ih =>
    intro usageCount i
    unfold Hex.generatePass
    simp only []
    rw [ih]
    set b := Hex.findBestMatch c photoColors usageCount excludedIndices
      diversityBonus availableTileIndices maxUsage with hb
    rw [List.count_cons]
    by_cases hib : i = b
    · subst hib
      rw [Function.update_same]
      simp
      omega
    · rw [Function.update_noteq hib]
      have hbi : ¬ b = i := fun h => hib h.symm
      simp [hbi]

theorem Hex.generatePass_cap_aux (photoColors : List Color)
    (excludedIndices : Finset ℕ) (diversityBonus : ℚ) (avail : List ℕ)
    (maxUsage : ℕ) :
    ∀ (regionColors : List Color) (usageCount : ℕ → ℕ),
      (∀ i, usageCount i ≤ maxUsage) →
      (eligiblePool avail excludedIndices photoColors.length).sum usageCount +
          regionColors.length ≤
        maxUsage * (eligiblePool avail excludedIndices photoColors.length).card →
      ∀ i, (Hex.generatePass photoColors excludedIndices diversityBonus
        (some avail) maxUsage regionColors usageCount).2 i ≤ maxUsage := by
  intro regionColors
  induction regionColors with
  | nil =>
    intro usageCount hcap _ i
    simpa [Hex.generatePass] using hcap i
  | cons c rest ih =>
    intro usageCount hcap hsum i
    -- the pool has a member below the cap, else the ledger sum meets capacity
    set P := eligiblePool avail excludedIndices photoColors.length with hP
    have hlt : P.sum usageCount < maxUsage * P.card := by
      simp only [List.length_cons] at hsum
      omega
    have hex : ∃ j ∈ P, usageCount j < maxUsage := by
      by_contra hnone
      push_neg at hnone
      have : maxUsage * P.card ≤ P.sum usageCount := by
        calc maxUsage * P.card = P.sum (fun _ => maxUsage) := by
              rw [Finset.sum_const, smul_eq_mul, mul_comm]
          _ ≤ P.sum usageCount := Finset.sum_le_sum hnone
      omega
    rcases hex with ⟨j, hjP, hjcap⟩
    have hjprops := Finset.mem_filter.mp hjP
    have hjavail : j ∈ avail := List.mem_toFinset.mp hjprops.1
    have hjrest := hjprops.2
    simp only [decide_eq_true_eq] at hjrest
    -- hence the candidate list is non-empty and the matcher picks an eligible id
    have hne := Hex.buildCandidates_ne_nil c usageCount excludedIndices
      diversityBonus avail maxUsage 0 photoColors j
      (by simpa using hjrest.2) (by simpa using hjrest.1) (by simpa using hjavail)
      (by simpa using hjcap)
    unfold Hex.generatePass
    simp only []
    set b := Hex.findBestMatch c photoColors usageCount excludedIndices
      diversityBonus (some avail) maxUsage with hbdef
    have hbprops : b ∉ excludedIndices ∧ b ∈ avail ∧ b < photoColors.length ∧
        usageCount b < maxUsage := by
      rw [hbdef]
      unfold Hex.findBestMatch
      cases hcand : Hex.buildCandidates c usageCount excludedIndices
          diversityBonus (some avail) maxUsage 0 photoColors with
      | nil => exact absurd hcand hne
      | cons c0 cs =>
        simp only []
        have hmem := selectFromCandidates_mem (c0 :: cs) (List.cons_ne_nil c0 cs)
        rcases List.mem_map.mp hmem with ⟨cd, hcd, hidx⟩
        have hsound := Hex.buildCandidates_sound c usageCount excludedIndices
          diversityBonus avail maxUsage 0 photoColors cd (hcand ▸ hcd)
        rw [← hidx]
        exact ⟨hsound.1, hsound.2.1, by have := hsound.2.2.2.1; omega,
          hsound.2.2.2.2.2⟩
    have hbP : b ∈ P := by
      rw [hP]
      unfold eligiblePool
      rw [Finset.mem_filter]
      exact ⟨List.mem_toFinset.mpr hbprops.2.1, ⟨hbprops.1, hbprops.2.2.1⟩⟩
    apply ih
    · intro i'
      by_cases hib : i' = b
      · subst hib
        rw [Function.update_same]
        exact hbprops.2.2.2
      · rw [Function.update_noteq hib]
        exact hcap i'
    · have hsum' : P.sum (Function.update usageCount b (usageCount b + 1)) =
          P.sum usageCount + 1 := by
        rw [Finset.sum_update_of_mem hbP, Finset.sdiff_singleton_eq_erase]
        rw [← Finset.sum_erase_add P usageCount hbP]
        ring
      rw [hsum']
      simp only [List.length_cons] at hsum
      omega

/-- C2.  For the hexagonal pass started with an empty ledger: whenever the
eligible pool is large enough for the region list
(`#regions ≤ maxUsage * #pool`), (1) no tile id is assigned more than
`maxUsage` regions — the final ledger is bounded by the cap and equals the
per-id assignment count, incremented exactly once per selection; and
(2) the matcher's candidate stage filters out every id whose ledger entry
has reached the cap before scoring. -/

theorem C2_usage_cap_invariant (photoColors : List Color)
    (excludedIndices : Finset ℕ) (diversityBonus : ℚ) (avail : List ℕ)
    (maxUsage : ℕ) (regionColors : List Color)
    (hsize : regionColors.length ≤
      maxUsage * (eligiblePool avail excludedIndices photoColors.length).card) :
    (∀ i, (Hex.generatePass photoColors excludedIndices diversityBonus
        (some avail) maxUsage regionColors (fun _ => 0)).2 i ≤ maxUsage ∧
      (Hex.generatePass photoColors excludedIndices diversityBonus
        (some avail) maxUsage regionColors (fun _ => 0)).2 i =
      (Hex.generatePass photoColors excludedIndices diversityBonus
        (some avail) maxUsage regionColors (fun _ => 0)).1.count i) ∧
    (∀ (targetColor : Color) (usageCount : ℕ → ℕ) (c : Candidate),
      c ∈ Hex.buildCandidates targetColor usageCount excludedIndices
        diversityBonus (some avail) maxUsage 0 photoColors →
      usageCount c.index < maxUsage) := by
  constructor
  · intro i
    constructor
    · apply Hex.generatePass_cap_aux photoColors excludedIndices diversityBonus
        avail maxUsage regionColors (fun _ => 0) (fun _ => Nat.zero_le _)
      simpa using hsize
    · have := Hex.generatePass_count photoColors excludedIndices diversityBonus
        (some avail) maxUsage regionColors (fun _ => 0) i
      simpa using this
  · intro targetColor usageCount c hc
    exact (Hex.buildCandidates_sound targetColor usageCount excludedIndices
      diversityBonus avail maxUsage 0 photoColors c hc).2.2.2.2.2

/-- C2 witness: a pool of three photos with hero index `0` excluded, two
allow-listed ids and four regions (`4 ≤ 2 * 2`). -/

theorem C2_witness :
    (∀ i, (Hex.generatePass [⟨0,0,0⟩, ⟨0,0,0⟩, ⟨0,0,0⟩] {0} 5000
        (some [1, 2]) MAX_TILE_USAGE [⟨0,0,0⟩, ⟨0,0,0⟩, ⟨0,0,0⟩, ⟨0,0,0⟩]
        (fun _ => 0)).2 i ≤ MAX_TILE_USAGE ∧
      (Hex.generatePass [⟨0,0,0⟩, ⟨0,0,0⟩, ⟨0,0,0⟩] {0} 5000
        (some [1, 2]) MAX_TILE_USAGE [⟨0,0,0⟩, ⟨0,0,0⟩, ⟨0,0,0⟩, ⟨0,0,0⟩]
        (fun _ => 0)).2 i =
      (Hex.generatePass [⟨0,0,0⟩, ⟨0,0,0⟩, ⟨0,0,0⟩] {0} 5000
        (some [1, 2]) MAX_TILE_USAGE [⟨0,0,0⟩, ⟨0,0,0⟩, ⟨0,0,0⟩, ⟨0,0,0⟩]
        (fun _ => 0)).1.count i) ∧
    (∀ (targetColor : Color) (usageCount : ℕ → ℕ) (c : Candidate),
      c ∈ Hex.buildCandidates targetColor usageCount {0} 5000
        (some [1, 2]) MAX_TILE_USAGE 0 [⟨0,0,0⟩, ⟨0,0,0⟩, ⟨0,0,0⟩] →
      usageCount c.index < MAX_TILE_USAGE) :=
  C2_usage_cap_invariant [⟨0,0,0⟩, ⟨0,0,0⟩, ⟨0,0,0⟩] {0} 5000 [1, 2]
    MAX_TILE_USAGE [⟨0,0,0⟩, ⟨0,0,0⟩, ⟨0,0,0⟩, ⟨0,0,0⟩]
    (by norm_num [eligiblePool, MAX_TILE_USAGE]; decide)

/-! ### Claim C9 -/

/-- C9.  (1) With the target color, raw distance and diversity bonus held
fixed (bonus non-negative, as at both call sites, 5000 and 10000),
increasing a candidate's usage count never decreases its adjusted score.
(2) In the matcher's similar-candidate stage, the selected candidate
minimises usage over the whole similar set, so a candidate is never
selected over an equally-close alternative of strictly lower usage. -/

theorem C9_diversity_monotonicity :
    (∀ (diversityBonus originalDistance : ℚ) (u v : ℕ), 0 ≤ diversityBonus →
      u ≤ v → AppJsx.adjustedDistance diversityBonus originalDistance u ≤
        AppJsx.adjustedDistance diversityBonus originalDistance v) ∧
    (∀ (candidates : List Candidate) (t0 t1 : Candidate) (ts : List Candidate),
      (insSort leDist candidates).take
          (min 20 (insSort leDist candidates).length) = t0 :: t1 :: ts →
      ∀ (s0 : Candidate) (srest : List Candidate),
        insSort leUsage ((t0 :: t1 :: ts).filter
          (fun c => decide (c.distance ≤ t0.distance * 2))) = s0 :: srest →
        selectFromCandidates candidates = s0.index ∧
        ∀ c ∈ (t0 :: t1 :: ts).filter
            (fun c => decide (c.distance ≤ t0.distance * 2)),
          s0.usage ≤ c.usage) := by
  constructor
  · intro diversityBonus originalDistance u v hdb huv
    unfold AppJsx.adjustedDistance
    by_cases hu : u > 0
    · have hv : v > 0 := lt_of_lt_of_le hu huv
      rw [if_pos hu, if_pos hv]
      have hmono := jsPow15_mono huv
      have h1 : (1 : ℚ) + jsPow15 u ≤ 1 + jsPow15 v := by linarith
      nlinarith
    · rw [if_neg hu]
      by_cases hv : v > 0
      · rw [if_pos hv]
        have hnn : 0 ≤ jsPow15 v := jsSqrt_nonneg _
        nlinarith
      · rw [if_neg hv]
  · intro candidates t0 t1 ts htop s0 srest hsim
    constructor
    · unfold selectFromCandidates
      simp only [htop, hsim]
    · intro c hc
      have hle := insSort_head_min leUsage leUsage_total leUsage_trans _ s0 srest
        hsim c hc
      unfold leUsage at hle
      rcases of_decide_eq_true hle with h | ⟨h, _⟩
      · exact le_of_lt h
      · exact le_of_eq h

/-- C9 witness: both conjuncts instantiated at concrete inputs. -/

theorem C9_witness :
    AppJsx.adjustedDistance 5000 0 0 ≤ AppJsx.adjustedDistance 5000 0 1 ∧
    (selectFromCandidates [⟨1, 0, 5, 0⟩, ⟨2, 1, 0, 1⟩] = 1 ∧
      ∀ c ∈ ([⟨1, 0, 5, 0⟩, ⟨2, 1, 0, 1⟩] :
          List Candidate).filter (fun c => decide (c.distance ≤ 0 * 2)),
        (5 : ℕ) ≤ c.usage) := by
  constructor
  · exact C9_diversity_monotonicity.1 5000 0 0 1 (by norm_num) (by norm_num)
  · have happ := C9_diversity_monotonicity.2 [⟨1, 0, 5, 0⟩, ⟨2, 1, 0, 1⟩]
      ⟨1, 0, 5, 0⟩ ⟨2, 1, 0, 1⟩ []
      (by norm_num [insSort, insertSorted, leDist])
      ⟨1, 0, 5, 0⟩ []
      (by norm_num [insSort, insertSorted, leUsage, List.filter])
    have h2 : ((⟨1, 0, 5, 0⟩ : Candidate) :: (⟨2, 1, 0, 1⟩ : Candidate) :: []).filter
        (fun c => decide (c.distance ≤ (⟨1, 0, 5, 0⟩ : Candidate).distance * 2)) =
        ([⟨1, 0, 5, 0⟩, ⟨2, 1, 0, 1⟩] :
          List Candidate).filter (fun c => decide (c.distance ≤ 0 * 2)) := by
      norm_num
    exact ⟨happ.1, h2 ▸ happ.2⟩

/-! ### Claim C5 -/

/-- C5 evaluation at the failing input.  In the hexagonal matcher, an unused
candidate (`usage = 0`) at raw distance `0` with `diversityBonus = 5000`
receives the adjusted score `2500 = 0 + 0.5 * 5000`: the double negation
`distance = originalDistance + usagePenalty - unusedPenalty` with
`unusedPenalty = -diversityBonus * 0.5` *adds* half the bonus, so the
adjusted score of an unused tile is strictly *above* its raw distance — the
spec's `raw + (usage>0 ? ... : -0.5*diversityBonus)` (strictly below raw)
is what the code's own comments intend but not what it computes. -/

theorem C5_unused_bonus_sign_bug :
    Hex.buildCandidates ⟨0, 0, 0⟩ (fun _ => 0) ∅ 5000 none 2 0 [⟨0, 0, 0⟩] =
      [⟨0, 2500, 0, 0⟩] ∧
    (2500 : ℚ) = 0 + (1/2) * 5000 ∧ ¬ ((2500 : ℚ) = 0 - (1/2) * 5000) := by
  refine ⟨?_, by norm_num, by norm_num⟩
  norm_num [Hex.buildCandidates, allowPass, colorDistance, jsSqrt]

end Gift
